import Mathlib

/-!
# Verification of the inline image rendering pipeline (`md_image.py`)

This file gives a shallow embedding of the core of `md_image.py`:

* the byte-header sniffer `get_image_size` (with the `imghdr` magic tests it
  relies on, the `struct.unpack` calls, and the JPEG marker scan over a
  seekable stream);
* the display-attribute computation `get_adjusted_img_attributes`;
* the whitespace merging of adjacent link regions in `show_images`;
* the full per-document render pass `show_images`, the `hide_images` and
  `on_close` lifecycle operations, and the phantom/remote-cache state they
  maintain.

External effects (the file system, the network, Sublime's path and URL
helpers) enter as components of an explicit environment record; everything
else is translated directly from the Python source.  Machine integers are
modelled as `Nat`/`Int` (with explicit two's-complement adjustment where the
source unpacks signed fields), Python floats as `ℚ`, and raising code as
`Except`.
-/

namespace MdImage

/-! ## Bytes and `struct` helpers -/

/-- `data[i : i+n]` with Python slice semantics (shorter near the end). -/
def bytesAt (data : List Nat) (i n : Nat) : List Nat :=
  (data.take (i + n)).drop i

/-- `struct.unpack('>H', bs)[0]`: big-endian unsigned 16-bit; `struct.error`
unless exactly two bytes are supplied. -/
def be16 (bs : List Nat) : Except String Nat :=
  match bs with
  | [b0, b1] => .ok (b0 * 256 + b1)
  | _ => .error "struct.error"

/-- `struct.unpack('<HH', bs)`: two little-endian unsigned 16-bit integers. -/
def le16x2 (bs : List Nat) : Except String (Nat × Nat) :=
  match bs with
  | [a0, a1, b0, b1] => .ok (a1 * 256 + a0, b1 * 256 + b0)
  | _ => .error "struct.error"

/-- `struct.unpack('>i', bs)[0]`: big-endian *signed* 32-bit integer. -/
def be32s (bs : List Nat) : Except String Int :=
  match bs with
  | [b0, b1, b2, b3] =>
      let v : Nat := ((b0 * 256 + b1) * 256 + b2) * 256 + b3
      .ok (if v < 2 ^ 31 then (v : Int) else (v : Int) - 2 ^ 32)
  | _ => .error "struct.error"

/-! ## `imghdr` magic detection

`get_image_size` branches on `imghdr.what('', head)`.  The `imghdr` module
runs its tests in order; the JPEG test (`h[6:10] in (b'JFIF', b'Exif')`)
comes before the PNG test (`h.startswith(b'\x89PNG\r\n\x1a\n')`), which comes
before the GIF test (`h[:6] in (b'GIF87a', b'GIF89a')`).  The later `imghdr`
tests return names (`tiff`, `bmp`, ...) that `get_image_size` treats exactly
like an undetected format, so they are folded into `none` here. -/

def jfifMagic : List Nat := [0x4A, 0x46, 0x49, 0x46]
def exifMagic : List Nat := [0x45, 0x78, 0x69, 0x66]
def pngSig : List Nat := [0x89, 0x50, 0x4E, 0x47, 0x0D, 0x0A, 0x1A, 0x0A]
def gif87Magic : List Nat := [0x47, 0x49, 0x46, 0x38, 0x37, 0x61]
def gif89Magic : List Nat := [0x47, 0x49, 0x46, 0x38, 0x39, 0x61]
def svgMagic : List Nat := [0x3C, 0x73, 0x76, 0x67]

def imghdr_what (h : List Nat) : Option String :=
  if bytesAt h 6 4 = jfifMagic ∨ bytesAt h 6 4 = exifMagic then some "jpeg"
  else if h.take 8 = pngSig then some "png"
  else if h.take 6 = gif87Magic ∨ h.take 6 = gif89Magic then some "gif"
  else none

/-! ## Seekable byte stream (local file handle / `io.BytesIO`) -/

structure Stream where
  data : List Nat
  pos : Nat
deriving DecidableEq, Repr

/-- `f.read(n)`: returns at most `n` bytes and advances by as many as read. -/
def Stream.readN (s : Stream) (n : Nat) : List Nat × Stream :=
  let bs := bytesAt s.data s.pos n
  (bs, ⟨s.data, s.pos + bs.length⟩)

/-- `ord(f.read(1))`: `TypeError` at end of stream (`ord(b'')`). -/
def Stream.readByte (s : Stream) : Except String (Nat × Stream) :=
  match bytesAt s.data s.pos 1 with
  | [b] => .ok (b, ⟨s.data, s.pos + 1⟩)
  | _ => .error "TypeError: ord() expected a character"

/-- `f.seek(k, 1)`: relative seek; a negative resulting position raises. -/
def Stream.seekRel (s : Stream) (k : Int) : Except String Stream :=
  let p : Int := (s.pos : Int) + k
  if p < 0 then .error "ValueError: negative seek position"
  else .ok ⟨s.data, p.toNat⟩

/-! ## JPEG marker scan

```
f.seek(0); size = 2; ftype = 0
while not 0xc0 <= ftype <= 0xcf:
    f.seek(size, 1)
    byte = f.read(1)
    while ord(byte) == 0xff: byte = f.read(1)
    ftype = ord(byte)
    size = struct.unpack('>H', f.read(2))[0] - 2
f.seek(1, 1)
height, width = struct.unpack('>HH', f.read(4))
```

The scan is written with fuel.  Each loop iteration advances the stream
position by at least one byte and every read fails at end of stream, so
`data.length + 4` units of fuel are more than any terminating run uses;
running out of fuel is reported as an error, which the caller treats like
every other failure of the scan. -/

/-- `byte = f.read(1); while ord(byte) == 0xff: byte = f.read(1)`. -/
def readNonFF : Nat → Stream → Except String (Nat × Stream)
  | 0, _ => .error "fuel exhausted"
  | fuel + 1, s =>
    match s.readByte with
    | .error e => .error e
    | .ok (b, s') => if b = 0xff then readNonFF fuel s' else .ok (b, s')

def jpegLoop : Nat → Stream → Int → Except String Stream
  | 0, _, _ => .error "fuel exhausted"
  | fuel + 1, s, size =>
    match s.seekRel size with
    | .error e => .error e
    | .ok s1 =>
      match readNonFF (fuel + 1) s1 with
      | .error e => .error e
      | .ok (ftype, s2) =>
        let (szBytes, s3) := s2.readN 2
        match be16 szBytes with
        | .error e => .error e
        | .ok sz =>
          if 0xc0 ≤ ftype ∧ ftype ≤ 0xcf then .ok s3
          else jpegLoop fuel s3 ((sz : Int) - 2)

/-- The whole `try` body of the JPEG branch; returns `(height, width)`. -/
def jpeg_size (data : List Nat) : Except String (Nat × Nat) :=
  match jpegLoop (data.length + 4) ⟨data, 0⟩ 2 with
  | .error e => .error e
  | .ok s =>
    match s.seekRel 1 with
    | .error e => .error e
    | .ok s1 =>
      match (s1.readN 4).1 with
      | [h1, h2, w1, w2] => .ok (h1 * 256 + h2, w1 * 256 + w2)
      | _ => .error "struct.error"

/-! ## `get_image_size`

Returns `(width, height, file_type)`; a raised exception is an `.error`.
The PNG `'>ii'` unpack of `head[16:24]` is modelled as two `'>i'` unpacks of
`head[16:20]` and `head[20:24]`; both fail exactly when fewer than eight
bytes are available, as the single Python unpack does. -/

def get_image_size (data : List Nat) : Except String (Option Int × Option Int × Option String) :=
  let head := data.take 24
  match imghdr_what head with
  | some ft =>
    if ft = "png" then
      match be32s (bytesAt head 4 4) with
      | .error e => .error e
      | .ok check =>
        if check ≠ 0x0d0a1a0a then .ok (none, none, some "png")
        else
          match be32s (bytesAt head 16 4), be32s (bytesAt head 20 4) with
          | .ok w, .ok h => .ok (some w, some h, some "png")
          | _, _ => .error "struct.error"
    else if ft = "gif" then
      match le16x2 (bytesAt head 6 4) with
      | .error e => .error e
      | .ok (w, h) => .ok (some (w : Int), some (h : Int), some "gif")
    else
      match jpeg_size data with
      | .ok (hgt, wdt) => .ok (some (wdt : Int), some (hgt : Int), some "jpeg")
      | .error _ => .ok (none, none, some "jpeg")
  | none =>
    if head.take 4 = svgMagic then
      .ok (none, none, none)
    else
      .ok (none, none, none)

/-! ## `get_adjusted_img_attributes`

```
img_attributes = get_provided_img_attributes(view, line_region, region)
if not img_attributes and w > 0 and h > 0:
    if max_width and w > max_width:
        m = max_width / w
        h *= m
        w = max_width
    img_attributes = 'width="{}" height="{}"'.format(w, h)
return img_attributes
```

The returned attribute string is modelled structurally: `provided` for a
verbatim user block, `computed w h` for the formatted width/height pair,
`empty` for `''`.  Python float arithmetic is modelled over `ℚ`; the
detected dimensions arrive as `Option` because the sniffer can yield `None`
geometry with a known format, in which case `w > 0` raises `TypeError`
(Python 3 cannot order `None` and `int`), modelled as `.error`.
`max_width` is a `ℚ` whose Python truthiness is `≠ 0` (`None` maps to `0`).
-/

inductive ImgAttr where
  | provided (s : String)
  | computed (w h : ℚ)
  | empty
deriving DecidableEq, Repr

def get_adjusted_img_attributes (provided : String) (h w : Option ℚ) (max_width : ℚ) :
    Except String ImgAttr :=
  if provided ≠ "" then .ok (.provided provided)
  else
    match w with
    | none => .error "TypeError: NoneType comparison"
    | some wv =>
      if 0 < wv then
        match h with
        | none => .error "TypeError: NoneType comparison"
        | some hv =>
          if 0 < hv then
            if max_width ≠ 0 ∧ max_width < wv then
              .ok (.computed max_width (hv * (max_width / wv)))
            else .ok (.computed wv hv)
          else .ok .empty
      else .ok .empty

/-! ## Regions and whitespace merging (`show_images`, lines 113–137)

A Sublime `Region` is a pair of offsets; `view.substr` reads the text
between them and `Region.cover` is the smallest region containing both.
`show_images` collects the regions matching the image-link selector, marks
every index whose region is separated from its predecessor by text for
which Python's `str.isspace()` is true (nonempty and all whitespace), and
folds the list merging each marked region into the previous entry.

Python's `str.isspace()` accepts exactly the characters for which CPython's
`Py_UNICODE_ISSPACE` holds: U+0009–U+000D, U+001C–U+001F, the space, NEL
(U+0085), NBSP (U+00A0), and the Unicode space separators U+1680,
U+2000–U+200A, U+2028, U+2029, U+202F, U+205F and U+3000; `pyIsSpaceChar`
lists this set explicitly. -/

structure Region where
  a : Nat
  b : Nat
deriving DecidableEq, Repr, Inhabited

/-- `Region.begin()`. -/
def Region.rbegin (r : Region) : Nat := min r.a r.b

/-- `Region.end()`. -/
def Region.rend (r : Region) : Nat := max r.a r.b

/-- `Region.cover(other)`. -/
def Region.cover (r s : Region) : Region := ⟨min r.rbegin s.rbegin, max r.rend s.rend⟩

/-- `view.substr(region)`: the document text inside the region. -/
def substr (doc : List Char) (r : Region) : List Char :=
  (doc.take r.rend).drop r.rbegin

/-- Python `str.isspace()` on one character (`Py_UNICODE_ISSPACE`):
U+0009–U+000D, U+001C–U+001F, space, NEL, NBSP and the Unicode space
separators. -/
def pyIsSpaceChar (c : Char) : Bool :=
  let n := c.toNat
  (9 ≤ n && n ≤ 13) || (28 ≤ n && n ≤ 31) || n == 32 || n == 0x85 || n == 0xA0 ||
    n == 0x1680 || (0x2000 ≤ n && n ≤ 0x200A) || n == 0x2028 || n == 0x2029 ||
    n == 0x202F || n == 0x205F || n == 0x3000

/-- Python `str.isspace()`: nonempty and entirely whitespace. -/
def pyIsSpace (s : List Char) : Bool := !s.isEmpty && s.all pyIsSpaceChar

/-- `sublime.Region(left_reg.end(), right_reg.begin())`. -/
def interRegion (l r : Region) : Region := ⟨l.rend, r.rbegin⟩

/-- The `indexes_to_merge` list: `i + 1` for every adjacent pair
`(img_regs[i], img_regs[i+1])` whose intervening text `isspace()`. -/
def indexes_to_merge (doc : List Char) (regs : List Region) : List Nat :=
  ((regs.zip (regs.drop 1)).enum).filterMap fun p =>
    if pyIsSpace (substr doc (interRegion p.2.1 p.2.2)) then some (p.1 + 1) else none

/-- The merging fold over `img_regs`: a marked index is folded into the last
entry of the accumulator (`new_img_regs[-1] = new_img_regs[-1].cover(...)`),
an unmarked one is appended.  (The `[-1]` access on an empty accumulator
cannot occur because every marked index is at least 1.) -/
def merge_regions (doc : List Char) (regs : List Region) : List Region :=
  let toMerge := indexes_to_merge doc regs
  regs.enum.foldl
    (fun acc p =>
      if p.1 ∈ toMerge then acc.dropLast ++ [(acc.getLastD default).cover p.2]
      else acc ++ [p.2]) []

/-- Recursive restatement of the merging fold used for the proofs. -/
def mergeAux (toMerge : List Nat) : List Region → Nat → List Region → List Region
  | acc, _, [] => acc
  | acc, i, r :: rest =>
    if i ∈ toMerge then
      mergeAux toMerge (acc.dropLast ++ [(acc.getLastD default).cover r]) (i + 1) rest
    else mergeAux toMerge (acc ++ [r]) (i + 1) rest

/-- Specification-level merging: group maximal runs of regions in which each
region is separated from the *original* previous region by `isspace()` text,
and cover each run.  `accL` is the cover built so far, `prev` the last
original region of the current run. -/
def mergeRuns (doc : List Char) : Region → Region → List Region → List Region
  | accL, _, [] => [accL]
  | accL, prev, r :: rest =>
    if pyIsSpace (substr doc (interRegion prev r)) then mergeRuns doc (accL.cover r) r rest
    else accL :: mergeRuns doc r r rest

/-- Specification-level description of the collected spans. -/
def collectSpec (doc : List Char) : List Region → List Region
  | [] => []
  | r :: rest => mergeRuns doc r r rest

/-! ## The render pass: data model

`ImageHandler` keeps, per document: the set of phantom `(key, html)` pairs
and the remote-URL byte cache.  The phantom key in the code is the string
`'mdimage-' + str(start_point)`; since the prefix is constant and decimal
rendering of naturals is injective, keys are modelled by the `start_point`
itself.  The rendered html is the fixed template
`<a href=URL><img src=SRC ... ATTRS>` instantiated with three values, so it
is modelled structurally by those values. -/

inductive ImgSrc where
  /-- `"data:image/%s;base64,%s" % (file_type, b64_data)` (remote). -/
  | dataUrl (fileType : Option String) (data : List Nat)
  /-- `urllib.parse.urlunparse(url)` of the `file:` url (local). -/
  | fileUrl (s : String)
deriving DecidableEq, Repr

/-- The result of `urllib.parse.urlparse`, keeping only the fields the code
reads (`scheme`, `path`) plus the `geturl()` rendering. -/
structure Url where
  scheme : String
  path : String
  geturl : String
deriving DecidableEq, Repr

/-- The three values instantiating the phantom html template. -/
structure Html where
  href : String
  src : ImgSrc
  attrs : ImgAttr
deriving DecidableEq, Repr

/-- A phantom `(key, html)` pair; the key is the anchor `start_point`. -/
abbrev Phantom := Nat × Html

/-- `ImageHandler.cached_remote_urls[view.id()]`: URL string to raw bytes. -/
abbrev Cache := List (String × List Nat)

/-- Host-visible overlay operations issued during a pass. -/
inductive Op where
  | add (key : Nat) (html : Html)
  | erase (key : Nat)
deriving DecidableEq, Repr

def cacheGet (c : Cache) (k : String) : Option (List Nat) :=
  (c.find? (fun kv => kv.1 == k)).map (·.2)

def cacheInsert (c : Cache) (k : String) (v : List Nat) : Cache :=
  (k, v) :: c.filter (fun kv => kv.1 != k)

/-- The per-pass `phantoms` dict (`phantoms[key] = phantom`). -/
def dictGet (d : List (Nat × Phantom)) (k : Nat) : Option Phantom :=
  (d.find? (fun kv => kv.1 == k)).map (·.2)

def dictInsert (d : List (Nat × Phantom)) (k : Nat) (v : Phantom) : List (Nat × Phantom) :=
  (k, v) :: d.filter (fun kv => kv.1 != k)

/-! ## Lines, anchors, provided attributes -/

/-- Offset of the start of the line containing `p`. -/
def lineStart (doc : List Char) (p : Nat) : Nat :=
  p - ((doc.take p).reverse.takeWhile (fun c => c != '\n')).length

/-- Offset of the end of the line containing `p` (exclusive of `'\n'`). -/
def lineEnd (doc : List Char) (p : Nat) : Nat :=
  p + ((doc.drop p).takeWhile (fun c => c != '\n')).length

/-- `view.line(region)`: the full line(s) containing the region. -/
def viewLine (doc : List Char) (r : Region) : Region :=
  ⟨lineStart doc r.rbegin, lineEnd doc r.rend⟩

/-- `line_region.a + len(LEADING_WHITESPACE_REGEX match)`: the offset of the
first non-`[ \t]` character on the span's line, used as the phantom key. -/
def startPoint (doc : List Char) (region : Region) : Nat :=
  let lr := viewLine doc region
  let line := substr doc lr
  lr.a + (line.takeWhile (fun c => c == ' ' || c == '\t')).length

/-- The trailing-`'>'` stripping step:
`if rel_p[-1] == '>': rel_p = rel_p[0:-1]`.  Indexing `[-1]` raises
`IndexError` on an empty string. -/
def strip_trailing_gt (rel_p : List Char) : Except String (List Char) :=
  match rel_p.getLast? with
  | none => .error "IndexError: string index out of range"
  | some c => .ok (if c = '>' then rel_p.dropLast else rel_p)

def lbraceChar : Char := Char.ofNat 123
def rbraceChar : Char := Char.ofNat 125

/-- Index of the last closing brace of `s`, if any. -/
def lastRBrace (s : List Char) : Option Nat :=
  ((s.enum.filter (fun p => p.2 == rbraceChar)).map (·.1)).getLast?

/-- Last index `i` with `s[i] = ')'`, `s[i+1]` an opening brace and room for
a closing brace at `j`. -/
def lastParenBrace (s : List Char) (j : Nat) : Option Nat :=
  ((List.range j).filter (fun i =>
    decide (i + 2 ≤ j) && (s.getD i ' ' == ')') && (s.getD (i + 1) ' ' == lbraceChar))).getLast?

/-- `get_provided_img_attributes`: match the `IMAGE_ATTRIBUTES_REGEX`
against the line text from the link start.  Both `.*` in the pattern are
greedy, so the pattern matches iff the text contains a close-paren directly
followed by an opening brace with a closing brace somewhere later, and the
group runs from after the *last* such position to the *last* closing
brace. -/
def get_provided_img_attributes (doc : List Char) (line_region link_region : Region) : String :=
  let full_line := substr doc line_region
  let link_till_eol := full_line.drop (link_region.a - line_region.a)
  match lastRBrace link_till_eol with
  | none => ""
  | some j =>
    match lastParenBrace link_till_eol j with
    | none => ""
    | some i => String.mk ((link_till_eol.take j).drop (i + 2))

/-! ## The environment of external effects

The file system, network and the host's path/URL helpers are kept abstract:
each field is a deterministic function standing for one source-level
operation that touches something outside the translated core. -/

structure Env where
  /-- `urllib.request.urlopen(rel_p)` followed by `response.read()`. -/
  net : String → Except String (List Nat)
  /-- `open(file_path, 'rb')` + reading the stream. -/
  readFile : String → Except String (List Nat)
  /-- `os.path.splitdrive`. -/
  splitdrive : String → String × String
  /-- `urllib.parse.urlparse`. -/
  urlparse : String → Url
  /-- The local path resolution of `prepare_local_image`: `os.path.join`
  with `base_path`, anchoring against the view/project folder when relative
  (`get_path_for`), `os.path.normpath`, and re-attaching the drive letter;
  arguments are `base_path`, `drive_letter`, `url.path`. -/
  resolvePath : String → String → String → String
  /-- `url._replace(scheme='file', path=file_path)`. -/
  fileUrlOf : Url → String → Url
  /-- `urllib.parse.urlunparse(url)` plus the Windows `file:///` fix. -/
  localSrc : Url → String → String

/-- Outcome of `prepare_local_image` / `prepare_remote_image`:
`SkipImageException`, a raised hard error, or the returned tuple
(`img_src, h, w, file_type, url` and, for remote images, `image_data`). -/
inductive PrepResult where
  | skip
  | err (msg : String)
  | ok (img_src : ImgSrc) (h w : Option Int) (file_type : Option String) (url : Url)
      (image_data : Option (List Nat))
deriving DecidableEq, Repr

/-- Python `str.endswith`, written over the character lists so that it
evaluates inside the kernel. -/
def pyEndsWith (s pat : String) : Bool :=
  decide (pat.data.length ≤ s.data.length) &&
    (s.data.drop (s.data.length - pat.data.length) == pat.data)

def prepare_remote_image (env : Env) (rel_p : String) (show_remote : Bool) (url : Url)
    (cache : Cache) : PrepResult :=
  if !show_remote then .skip
  else if pyEndsWith url.path ".svg" then .skip
  else
    let fetched : Except String (List Nat) :=
      match cacheGet cache rel_p with
      | some d => if d.isEmpty then env.net rel_p else .ok d
      | none => env.net rel_p
    match fetched with
    | .error _ => .err ("MarkdownImages: Failed to open URL [" ++ rel_p ++ "]")
    | .ok image_data =>
      match get_image_size image_data with
      | .error _ =>
          .err ("MarkdownImages: Failed to get_image_size for data from URL [" ++ rel_p ++ "]")
      | .ok (w, h, ft) => .ok (.dataUrl ft image_data) h w ft url (some image_data)

def prepare_local_image (env : Env) (base_path drive : String) (show_local : Bool)
    (url : Url) : PrepResult :=
  if !show_local then .skip
  else
    let file_path := env.resolvePath base_path drive url.path
    let url' := env.fileUrlOf url file_path
    match (env.readFile file_path).bind get_image_size with
    | .error _ => .err ("MarkdownImages: Failed to load [" ++ file_path ++ "]")
    | .ok (w, h, ft) => .ok (.fileUrl (env.localSrc url' file_path)) h w ft url' none

/-- What one iteration of the span loop decides before touching state:
`skip` covers `SkipImageException` and a falsy `file_type` (both `continue`);
`render` carries the phantom key and html, the cache key (`rel_p` after the
drive split) and the remote bytes to cache, if any. -/
inductive SpanStep where
  | skip
  | render (key : Nat) (html : Html) (relKey : String) (image_data : Option (List Nat))
deriving DecidableEq, Repr

/-- The straight-line body of one iteration of
`for region in reversed(img_regs)` up to the construction of the phantom.
Errors are uncaught Python exceptions: the empty-string `IndexError`, the
re-raised resolution failures (only `SkipImageException` is caught by the
loop) and the `TypeError` from comparing `None` geometry in
`get_adjusted_img_attributes` (the surrounding `except` catches only
`UnicodeDecodeError`, which cannot arise in this embedding). -/
def computeSpan (env : Env) (show_local show_remote : Bool) (base_path : String)
    (max_width : ℚ) (doc : List Char) (cache : Cache) (region : Region) :
    Except String SpanStep :=
  let line_region := viewLine doc region
  match strip_trailing_gt (substr doc region) with
  | .error e => .error e
  | .ok rel_p0 =>
    let sd := env.splitdrive (String.mk rel_p0)
    let drive := sd.1
    let rel_p := sd.2
    let url := env.urlparse rel_p
    let prep :=
      if url.scheme ≠ "" ∧ url.scheme ≠ "file" then
        prepare_remote_image env rel_p show_remote url cache
      else prepare_local_image env base_path drive show_local url
    match prep with
    | .skip => .ok .skip
    | .err m => .error m
    | .ok img_src h w ft url' image_data =>
      if ft = none ∨ ft = some "" then .ok .skip
      else
        match get_adjusted_img_attributes
            (get_provided_img_attributes doc line_region region)
            (h.map (fun z => (z : ℚ))) (w.map (fun z => (z : ℚ))) max_width with
        | .error e => .error e
        | .ok attrs =>
          .ok (.render (startPoint doc region) ⟨url'.geturl, img_src, attrs⟩ rel_p image_data)

/-- The mutable state the span loop works on: the per-pass `phantoms` dict,
the session's stored phantom set, the remote cache and the host operations
issued so far. -/
structure LoopState where
  dict : List (Nat × Phantom)
  stored : List Phantom
  cache : Cache
  ops : List Op
deriving DecidableEq, Repr

/-- One iteration of the span loop acting on the state: insert into the
per-pass dict, then — unless the identical phantom is already stored —
`add_phantom`, record it, and cache the remote bytes. -/
def processRegion (env : Env) (show_local show_remote : Bool) (base_path : String)
    (max_width : ℚ) (doc : List Char) (ls : LoopState) (region : Region) :
    Except String LoopState :=
  match computeSpan env show_local show_remote base_path max_width doc ls.cache region with
  | .error e => .error e
  | .ok .skip => .ok ls
  | .ok (.render key html relKey image_data) =>
    let phantom : Phantom := (key, html)
    let dict' := dictInsert ls.dict key phantom
    if phantom ∈ ls.stored then .ok { ls with dict := dict' }
    else
      { dict := dict'
        stored := ls.stored ++ [phantom]
        cache :=
          match image_data with
          | some d => cacheInsert ls.cache relKey d
          | none => ls.cache
        ops := ls.ops ++ [Op.add key html] : LoopState } |> .ok

/-- The span loop.  An uncaught exception aborts the loop, leaving the state
mutated so far (the class-level phantom set and cache keep every update made
before the raise). -/
def showImagesLoop (env : Env) (show_local show_remote : Bool) (base_path : String)
    (max_width : ℚ) (doc : List Char) :
    List Region → LoopState → LoopState × Option String
  | [], ls => (ls, none)
  | r :: rest, ls =>
    match processRegion env show_local show_remote base_path max_width doc ls r with
    | .error m => (ls, some m)
    | .ok ls' => showImagesLoop env show_local show_remote base_path max_width doc rest ls'

/-- Per-document session state: `ImageHandler.phantoms[view.id()]` and
`ImageHandler.cached_remote_urls[view.id()]` (an absent `defaultdict` entry
is the empty list). -/
structure DocState where
  phantoms : List Phantom
  cache : Cache
deriving DecidableEq, Repr

/-- `if not max_width or max_width < 0: max_width = 1024` (`None` is the
falsy `0`). -/
def normMw (max_width : ℚ) : ℚ :=
  if max_width = 0 ∨ max_width < 0 then 1024 else max_width

/-- `ImageHandler.show_images`.  Returns the new session state, the host
operations issued, and the uncaught exception if the pass aborted.  On a
completed pass the leftover-erase sweep keeps exactly the stored phantoms
that agree with the per-pass dict and erases the rest. -/
def show_images (env : Env) (doc : List Char) (img_regs : List Region) (max_width : ℚ)
    (show_local show_remote : Bool) (base_path : String) (st : DocState) :
    DocState × List Op × Option String :=
  if !show_local && !show_remote then (st, [], none)
  else
    let mw := normMw max_width
    let regs := merge_regions doc img_regs
    match showImagesLoop env show_local show_remote base_path mw doc regs.reverse
        ⟨[], st.phantoms, st.cache, []⟩ with
    | (ls, some m) => (⟨ls.stored, ls.cache⟩, ls.ops, some m)
    | (ls, none) =>
      let keep := ls.stored.filter (fun p => dictGet ls.dict p.1 == some p)
      let eraseOps := (ls.stored.filter (fun p => !(dictGet ls.dict p.1 == some p))).map
          (fun p => Op.erase p.1)
      (⟨keep, ls.cache⟩, ls.ops ++ eraseOps, none)

/-- `ImageHandler.hide_images` = `_erase_phantoms`: erase every stored
phantom by key and drop the phantom entry; the cached URL data is kept. -/
def hide_images (st : DocState) : DocState × List Op :=
  (⟨[], st.cache⟩, st.phantoms.map (fun p => Op.erase p.1))

/-- `ImageHandler.on_close`: `_erase_phantoms` plus
`cached_remote_urls.pop(view.id(), None)`. -/
def on_close (st : DocState) : DocState × List Op :=
  (⟨[], []⟩, st.phantoms.map (fun p => Op.erase p.1))

/-- A cache all of whose nonempty entries are what the network function
returns for their URL.  Every cache the code ever builds is of this shape,
and under it a cache hit is indistinguishable from a re-fetch. -/
def CacheCoherent (env : Env) (c : Cache) : Prop :=
  ∀ k d, cacheGet c k = some d → d ≠ [] → env.net k = .ok d

/-- The keys of the spans of `regs` that render, in order, computed against
an empty cache. -/
def spanKeys (env : Env) (show_local show_remote : Bool) (base_path : String)
    (max_width : ℚ) (doc : List Char) (regs : List Region) : List Nat :=
  regs.filterMap fun r =>
    match computeSpan env show_local show_remote base_path max_width doc [] r with
    | .ok (.render k _ _ _) => some k
    | _ => none

/-- The phantom keys a pass computes, in processing order, against an empty
cache (under a coherent cache the computed spans are the same). -/
def passKeys (env : Env) (doc : List Char) (img_regs : List Region) (max_width : ℚ)
    (show_local show_remote : Bool) (base_path : String) : List Nat :=
  spanKeys env show_local show_remote base_path (normMw max_width) doc
    ((merge_regions doc img_regs).reverse)

/-- The per-pass dict as a function of the span outcomes alone: the fold of
`dictInsert` over the spans a pass renders (against an empty cache). -/
def dictRun (env : Env) (show_local show_remote : Bool) (base_path : String)
    (max_width : ℚ) (doc : List Char) (d0 : List (Nat × Phantom)) (regs : List Region) :
    List (Nat × Phantom) :=
  regs.foldl
    (fun d r =>
      match computeSpan env show_local show_remote base_path max_width doc [] r with
      | .ok (.render k html _ _) => dictInsert d k (k, html)
      | _ => d) d0

/-! ## Concrete inputs used by witnesses and counterexamples -/

/-- Document `"ab![x]cd"` stand-in: any text works; the two regions abut, so
the text strictly between them is empty. -/
def docC4 : List Char := ['a', 'b', 'c', 'd']

/-- Document `"xx yy"`: two regions separated by a single space. -/
def docC4sp : List Char := ['x', 'x', ' ', 'y', 'y']

/-- Document `"aa bb cc"`: three regions separated by single spaces. -/
def docC4tr : List Char := ['a', 'a', ' ', 'b', 'b', ' ', 'c', 'c']

/-- Document `"xxzyy"`: two regions separated by a non-whitespace char. -/
def docC4nz : List Char := ['x', 'x', 'z', 'y', 'y']

/-- Document `"xx\x0cyy"`: two regions separated by a form feed, which
Python's `str.isspace()` accepts. -/
def docC4ff : List Char := ['x', 'x', Char.ofNat 12, 'y', 'y']

/-- Document `"xx\xa0yy"`: two regions separated by a no-break space, which
Python's `str.isspace()` accepts. -/
def docC4nb : List Char := ['x', 'x', Char.ofNat 0xA0, 'y', 'y']

/-- A 1×1 PNG header. -/
def pngA : List Nat :=
  pngSig ++ [0, 0, 0, 13, 73, 72, 68, 82] ++ [0, 0, 0, 1] ++ [0, 0, 0, 1]

/-- A 2×2 PNG header. -/
def pngB : List Nat :=
  pngSig ++ [0, 0, 0, 13, 73, 72, 68, 82] ++ [0, 0, 0, 2] ++ [0, 0, 0, 2]

/-- An environment for local-image scenarios: no drive letters, paths used
verbatim, `file://` URLs, parametrized by the file system. -/
def localEnv (files : String → Except String (List Nat)) : Env :=
  { net := fun _ => .error "URLError"
    readFile := files
    splitdrive := fun s => ("", s)
    urlparse := fun s => ⟨"", s, s⟩
    resolvePath := fun _ _ p => p
    fileUrlOf := fun _ fp => ⟨"file", fp, "file://" ++ fp⟩
    localSrc := fun _ fp => "file://" ++ fp }

/-- File system with `a.png` (1×1) and `b.png` (2×2). -/
def filesAB : String → Except String (List Nat) :=
  fun s =>
    if s = "a.png" then .ok pngA
    else if s = "b.png" then .ok pngB
    else .error "FileNotFoundError"

def envAB : Env := localEnv filesAB

/-- `"![](a.png)x![](b.png)"`: two image links on the *same* line, separated
by a non-whitespace character; both phantoms get the key `0`. -/
def docSameLine : List Char := "![](a.png)x![](b.png)".data

/-- The regions of `a.png` and `b.png` in `docSameLine`. -/
def regsSameLine : List Region := [⟨4, 9⟩, ⟨15, 20⟩]

/-- `"![](a.png)\n![](b.png)"`: one link per line; `b.png` is missing from
the file system used for the C1 scenario. -/
def docTwoLines : List Char := "![](a.png)\n![](b.png)".data

def regsTwoLines : List Region := [⟨4, 9⟩, ⟨15, 20⟩]

/-- File system with only `a.png`. -/
def filesAonly : String → Except String (List Nat) :=
  fun s => if s = "a.png" then .ok pngA else .error "FileNotFoundError"

def envAonly : Env := localEnv filesAonly

/-- `"![](c.png)\n![](a.png)x![](b.png)"`: a missing image on line 0 and two
same-line images on line 1. -/
def docC9 : List Char := "![](c.png)\n![](a.png)x![](b.png)".data

def regsC9 : List Region := [⟨4, 9⟩, ⟨15, 20⟩, ⟨26, 31⟩]

/-- An environment for one remote image at `http://x/i.png`. -/
def envRemote : Env :=
  { net := fun s => if s = "http://x/i.png" then .ok pngA else .error "URLError"
    readFile := fun _ => .error "FileNotFoundError"
    splitdrive := fun s => ("", s)
    urlparse := fun s =>
      if s = "http://x/i.png" then ⟨"http", "/i.png", s⟩ else ⟨"", s, s⟩
    resolvePath := fun _ _ p => p
    fileUrlOf := fun _ fp => ⟨"file", fp, "file://" ++ fp⟩
    localSrc := fun _ fp => "file://" ++ fp }

/-- `"![](http://x/i.png)"` with the URL as the single region. -/
def docRemote : List Char := "![](http://x/i.png)".data

def regsRemote : List Region := [⟨4, 18⟩]

/-- An environment in which no file exists. -/
def envNone : Env := localEnv fun _ => .error "FileNotFoundError"

/-- `"![](a.png)"` as a single-line document. -/
def docOneLine : List Char := "![](a.png)".data

/-- The phantom html of `a.png` rendered locally (1×1, unscaled). -/
def htmlA : Html := ⟨"file://a.png", .fileUrl "file://a.png", .computed 1 1⟩

/-- The phantom html of `b.png` rendered locally (2×2, unscaled). -/
def htmlB : Html := ⟨"file://b.png", .fileUrl "file://b.png", .computed 2 2⟩

/-- A minimal phantom html for lifecycle witnesses. -/
def htmlU : Html := ⟨"u", .fileUrl "u", .empty⟩

/-- A complete, valid 24-byte PNG header: signature, IHDR length/type,
width 3, height 5. -/
def png24ex : List Nat :=
  pngSig ++ [0, 0, 0, 13, 73, 72, 68, 82] ++ [0, 0, 0, 3] ++ [0, 0, 0, 5]

/-- A JFIF stream whose APP0 segment pushes the start-of-frame marker to
offset 26, so the dimension bytes live at offsets 31–34 — beyond the 24-byte
head.  Appending four dimension bytes yields a stream the JPEG scan parses
successfully. -/
def jpegBase : List Nat :=
  [0xFF, 0xD8, 0xFF, 0xE0, 0x00, 0x16, 0x4A, 0x46, 0x49, 0x46] ++
    List.replicate 16 0 ++ [0xFF, 0xC0, 0x00, 0x00, 8]

instance {ε α : Type} [DecidableEq ε] [DecidableEq α] : DecidableEq (Except ε α) := fun x y =>
  match x, y with
  | .error a, .error b => if h : a = b then .isTrue (by rw [h]) else .isFalse (by simp [h])
  | .ok a, .ok b => if h : a = b then .isTrue (by rw [h]) else .isFalse (by simp [h])
  | .error _, .ok _ => .isFalse (by simp)
  | .ok _, .error _ => .isFalse (by simp)

/-! ## Helper lemmas about the byte-level functions -/

theorem length_bytesAt (data : List Nat) (i n : Nat) :
    (bytesAt data i n).length = min (i + n) data.length - i := by
  simp [bytesAt]

theorem be32s_err (bs : List Nat) (h : bs.length ≠ 4) :
    be32s bs = .error "struct.error" := by
  match bs with
  | [] | [_] | [_, _] | [_, _, _] => rfl
  | [_, _, _, _] => exact absurd rfl h
  | _ :: _ :: _ :: _ :: _ :: _ => rfl

theorem be32s_ok (bs : List Nat) (h : bs.length = 4) :
    ∃ v, be32s bs = .ok v := by
  match bs with
  | [a, b, c, d] => exact ⟨_, rfl⟩

theorem le16x2_err (bs : List Nat) (h : bs.length ≠ 4) :
    le16x2 bs = .error "struct.error" := by
  match bs with
  | [] | [_] | [_, _] | [_, _, _] => rfl
  | [_, _, _, _] => exact absurd rfl h
  | _ :: _ :: _ :: _ :: _ :: _ => rfl

theorem imghdr_what_cases (h : List Nat) (ft : String) (hw : imghdr_what h = some ft) :
    ft = "jpeg" ∨ ft = "png" ∨ ft = "gif" := by
  unfold imghdr_what at hw
  split at hw
  · exact Or.inl (Option.some.inj hw).symm
  · split at hw
    · exact Or.inr (Or.inl (Option.some.inj hw).symm)
    · split at hw
      · exact Or.inr (Or.inr (Option.some.inj hw).symm)
      · exact absurd hw (by simp)

theorem imghdr_png_take8 (h : List Nat) (hw : imghdr_what h = some "png") :
    h.take 8 = pngSig := by
  unfold imghdr_what at hw
  split at hw
  · exact absurd (Option.some.inj hw) (by decide)
  · split at hw
    · assumption
    · split at hw
      · exact absurd (Option.some.inj hw) (by decide)
      · exact absurd hw (by simp)

theorem imghdr_gif_take6 (h : List Nat) (hw : imghdr_what h = some "gif") :
    h.take 6 = gif87Magic ∨ h.take 6 = gif89Magic := by
  unfold imghdr_what at hw
  split at hw
  · exact absurd (Option.some.inj hw) (by decide)
  · split at hw
    · exact absurd (Option.some.inj hw) (by decide)
    · split at hw
      · assumption
      · exact absurd hw (by simp)

/-! ## Lemmas about the whitespace merging -/

theorem foldl_enumFrom_mergeAux (toMerge : List Nat) (l : List Region) (i : Nat)
    (acc : List Region) :
    (List.enumFrom i l).foldl
      (fun acc p =>
        if p.1 ∈ toMerge then acc.dropLast ++ [(acc.getLastD default).cover p.2]
        else acc ++ [p.2]) acc
    = mergeAux toMerge acc i l := by
  induction l generalizing i acc with
  | nil => rfl
  | cons r rest ih =>
    rw [show List.enumFrom i (r :: rest) = (i, r) :: List.enumFrom (i + 1) rest from rfl,
      List.foldl_cons, mergeAux]
    by_cases h : i ∈ toMerge
    · rw [if_pos h, if_pos h]; exact ih _ _
    · rw [if_neg h, if_neg h]; exact ih _ _

theorem mem_indexes_filterMap (doc : List Char) (ps : List (Region × Region)) (k j : Nat) :
    j ∈ (List.enumFrom k ps).filterMap (fun p =>
        if pyIsSpace (substr doc (interRegion p.2.1 p.2.2)) then some (p.1 + 1) else none) ↔
    ∃ m pr, ps[m]? = some pr ∧ j = k + m + 1 ∧
      pyIsSpace (substr doc (interRegion pr.1 pr.2)) := by
  induction ps generalizing k with
  | nil => simp
  | cons p ps ih =>
    rw [show List.enumFrom k (p :: ps) = (k, p) :: List.enumFrom (k + 1) ps from rfl,
      List.filterMap_cons]
    by_cases hc : pyIsSpace (substr doc (interRegion p.1 p.2))
    · rw [if_pos hc]
      simp only [List.mem_cons, ih]
      constructor
      · rintro (rfl | ⟨m, pr, hm, rfl, hsp⟩)
        · exact ⟨0, p, by simp, by omega, hc⟩
        · exact ⟨m + 1, pr, by simpa using hm, by omega, hsp⟩
      · rintro ⟨m, pr, hm, rfl, hsp⟩
        cases m with
        | zero =>
          simp only [List.getElem?_cons_zero, Option.some.injEq] at hm
          subst hm
          exact Or.inl (by omega)
        | succ m =>
          exact Or.inr ⟨m, pr, by simpa using hm, by omega, hsp⟩
    · rw [if_neg hc]
      simp only [ih]
      constructor
      · rintro ⟨m, pr, hm, rfl, hsp⟩
        exact ⟨m + 1, pr, by simpa using hm, by omega, hsp⟩
      · rintro ⟨m, pr, hm, rfl, hsp⟩
        cases m with
        | zero =>
          simp only [List.getElem?_cons_zero, Option.some.injEq] at hm
          subst hm
          exact absurd hsp hc
        | succ m =>
          exact ⟨m, pr, by simpa using hm, by omega, hsp⟩

theorem mem_indexes_to_merge (doc : List Char) (regs : List Region) (j : Nat) :
    j ∈ indexes_to_merge doc regs ↔
    ∃ m pr, (regs.zip (regs.drop 1))[m]? = some pr ∧ j = m + 1 ∧
      pyIsSpace (substr doc (interRegion pr.1 pr.2)) := by
  rw [indexes_to_merge, show (regs.zip (regs.drop 1)).enum =
      List.enumFrom 0 (regs.zip (regs.drop 1)) from rfl,
    mem_indexes_filterMap]
  constructor
  · rintro ⟨m, pr, hm, rfl, hsp⟩; exact ⟨m, pr, hm, by omega, hsp⟩
  · rintro ⟨m, pr, hm, rfl, hsp⟩; exact ⟨m, pr, hm, by omega, hsp⟩

theorem mergeAux_eq_runs (doc : List Char) (toMerge : List Nat) :
    ∀ (rest : List Region) (front : List Region) (accL prev : Region) (i : Nat),
      (∀ k pr, ((prev :: rest).zip rest)[k]? = some pr →
        ((i + k ∈ toMerge) ↔ pyIsSpace (substr doc (interRegion pr.1 pr.2)))) →
      mergeAux toMerge (front ++ [accL]) i rest = front ++ mergeRuns doc accL prev rest := by
  intro rest
  induction rest with
  | nil => intro front accL prev i _; simp [mergeAux, mergeRuns]
  | cons r rest ih =>
    intro front accL prev i H
    have h0 : (i ∈ toMerge) ↔ pyIsSpace (substr doc (interRegion prev r)) := by
      have := H 0 (prev, r) (by rw [List.zip_cons_cons]; simp)
      simpa using this
    have Hnext : ∀ k pr, ((r :: rest).zip rest)[k]? = some pr →
        (((i + 1) + k ∈ toMerge) ↔ pyIsSpace (substr doc (interRegion pr.1 pr.2))) := by
      intro k pr hk
      have := H (k + 1) pr (by rw [List.zip_cons_cons]; simpa using hk)
      rw [show i + (k + 1) = i + 1 + k by omega] at this
      exact this
    rw [mergeAux, mergeRuns]
    by_cases hc : pyIsSpace (substr doc (interRegion prev r))
    · rw [if_pos (h0.mpr hc), if_pos hc]
      rw [List.dropLast_concat, List.getLastD_concat]
      exact ih front (accL.cover r) r (i + 1) Hnext
    · rw [if_neg (fun hm => hc (h0.mp hm)), if_neg hc]
      rw [show front ++ [accL] ++ [r] = (front ++ [accL]) ++ [r] from rfl]
      rw [show front ++ (accL :: mergeRuns doc r r rest) =
        (front ++ [accL]) ++ mergeRuns doc r r rest by simp]
      exact ih (front ++ [accL]) r r (i + 1) Hnext

/-- The code's merging fold is exactly run-merging: maximal runs of regions
whose consecutive originals are separated by `isspace()` text collapse to
their cover. -/
theorem merge_regions_eq_collectSpec (doc : List Char) (regs : List Region) :
    merge_regions doc regs = collectSpec doc regs := by
  cases regs with
  | nil => rfl
  | cons r rest =>
    rw [merge_regions]
    rw [show (r :: rest).enum = List.enumFrom 0 (r :: rest) from rfl,
      foldl_enumFrom_mergeAux]
    have h0 : (0 : Nat) ∉ indexes_to_merge doc (r :: rest) := by
      rw [mem_indexes_to_merge]
      rintro ⟨m, pr, -, hm, -⟩
      omega
    rw [mergeAux, if_neg h0]
    have H : ∀ k pr, ((r :: rest).zip rest)[k]? = some pr →
        ((1 + k ∈ indexes_to_merge doc (r :: rest)) ↔
          pyIsSpace (substr doc (interRegion pr.1 pr.2))) := by
      intro k pr hk
      rw [mem_indexes_to_merge]
      constructor
      · rintro ⟨m, pr', hm', hEq, hsp⟩
        have hmk : m = k := by omega
        subst hmk
        rw [show ((r :: rest).zip ((r :: rest).drop 1)) = (r :: rest).zip rest from rfl] at hm'
        rw [hk] at hm'
        cases hm'
        exact hsp
      · intro hsp
        exact ⟨k, pr, by simpa using hk, by omega, hsp⟩
    have := mergeAux_eq_runs doc (indexes_to_merge doc (r :: rest)) rest [] r r 1 H
    simpa [collectSpec] using this

/-! ## Claim C4 — merging whitespace-separated link regions -/

/-- C4, counterexample.  The claim states that adjacent ranges whose
strictly-intervening text is entirely whitespace are merged.  Two abutting
ranges have *empty* intervening text — every character of which is
whitespace — yet Python's `''.isspace()` is `False`, so the code does not
merge them. -/
theorem C4_counterexample :
    (substr docC4 (interRegion ⟨0, 2⟩ ⟨2, 4⟩)).all pyIsSpaceChar = true ∧
    merge_regions docC4 [⟨0, 2⟩, ⟨2, 4⟩] = [⟨0, 2⟩, ⟨2, 4⟩] ∧
    ([(⟨0, 2⟩ : Region), ⟨2, 4⟩] ≠ [Region.cover ⟨0, 2⟩ ⟨2, 4⟩]) := by decide

/-- C4, amended.  With "entirely whitespace" read as Python's `isspace()`
(nonempty and all whitespace): the collected ranges are grouped into maximal
runs of regions whose consecutive originals are separated by `isspace()`
text and each run is covered by one span (so merging is transitive); in
particular an `isspace()`-separated pair merges into its cover, three
`isspace()`-separated fragments collapse into a single span, and a pair
whose gap is not `isspace()` (in particular one containing any
non-whitespace character) stays distinct. -/
theorem C4_amended :
    (∀ (doc : List Char) (regs : List Region),
      merge_regions doc regs = collectSpec doc regs) ∧
    (∀ (doc : List Char) (l r : Region),
      pyIsSpace (substr doc (interRegion l r)) = true →
      merge_regions doc [l, r] = [l.cover r]) ∧
    (∀ (doc : List Char) (a b c : Region),
      pyIsSpace (substr doc (interRegion a b)) = true →
      pyIsSpace (substr doc (interRegion b c)) = true →
      merge_regions doc [a, b, c] = [(a.cover b).cover c]) ∧
    (∀ (doc : List Char) (l r : Region),
      pyIsSpace (substr doc (interRegion l r)) = false →
      merge_regions doc [l, r] = [l, r]) := by
  refine ⟨merge_regions_eq_collectSpec, ?_, ?_, ?_⟩
  · intro doc l r h
    rw [merge_regions_eq_collectSpec]
    simp [collectSpec, mergeRuns, h]
  · intro doc a b c h1 h2
    rw [merge_regions_eq_collectSpec]
    simp [collectSpec, mergeRuns, h1, h2]
  · intro doc l r h
    rw [merge_regions_eq_collectSpec]
    simp [collectSpec, mergeRuns, h]

/-- C4, witness: a space-separated pair merges, as do a form-feed-separated
and a no-break-space-separated pair (whitespace beyond ASCII space that
`str.isspace()` accepts); three space-separated fragments collapse to one
span; a `z`-separated pair stays distinct. -/
theorem C4_amended_witness :
    merge_regions docC4sp [⟨0, 2⟩, ⟨3, 5⟩] = [Region.cover ⟨0, 2⟩ ⟨3, 5⟩] ∧
    merge_regions docC4ff [⟨0, 2⟩, ⟨3, 5⟩] = [Region.cover ⟨0, 2⟩ ⟨3, 5⟩] ∧
    merge_regions docC4nb [⟨0, 2⟩, ⟨3, 5⟩] = [Region.cover ⟨0, 2⟩ ⟨3, 5⟩] ∧
    merge_regions docC4tr [⟨0, 2⟩, ⟨3, 5⟩, ⟨6, 8⟩] =
      [Region.cover (Region.cover ⟨0, 2⟩ ⟨3, 5⟩) ⟨6, 8⟩] ∧
    merge_regions docC4nz [⟨0, 2⟩, ⟨3, 5⟩] = [⟨0, 2⟩, ⟨3, 5⟩] :=
  ⟨C4_amended.2.1 _ _ _ (by decide),
   C4_amended.2.1 _ _ _ (by decide),
   C4_amended.2.1 _ _ _ (by decide),
   C4_amended.2.2.1 _ _ _ _ (by decide) (by decide),
   C4_amended.2.2.2 _ _ _ (by decide)⟩

/-! ## Claim C2 — sniffing truncated/corrupt headers -/

/-- C2, counterexample.  The claim states that for every truncated or
corrupt header of each supported format the sniffer returns
`(None, None, format-or-None)` without raising.  A header that is exactly
the 8-byte PNG signature is detected as PNG and passes the `[4:8]` check,
but `struct.unpack('>ii', head[16:24])` then raises `struct.error` on the
empty slice instead of returning. -/
theorem C2_counterexample : get_image_size pngSig = .error "struct.error" := rfl

/-- C2, amended.  For data detected as JPEG the sniffer always returns with
format `"jpeg"` (every scan failure is caught); for undetected data it
returns `(None, None, None)` without raising; but a detected PNG header
shorter than 24 bytes, or a detected GIF header shorter than 10 bytes,
raises `struct.error` instead of returning. -/
theorem C2_amended :
    (∀ data : List Nat, imghdr_what (data.take 24) = some "jpeg" →
      ∃ w h, get_image_size data = .ok (w, h, some "jpeg")) ∧
    (∀ data : List Nat, imghdr_what (data.take 24) = none →
      get_image_size data = .ok (none, none, none)) ∧
    (∀ data : List Nat, imghdr_what (data.take 24) = some "png" → data.length < 24 →
      get_image_size data = .error "struct.error") ∧
    (∀ data : List Nat, imghdr_what (data.take 24) = some "gif" → data.length < 10 →
      get_image_size data = .error "struct.error") := by
  refine ⟨?_, ?_, ?_, ?_⟩
  · intro data hw
    have h1 : ¬ (("jpeg" : String) = "png") := by decide
    have h2 : ¬ (("jpeg" : String) = "gif") := by decide
    cases hj : jpeg_size data with
    | ok p =>
      exact ⟨some (p.2 : Int), some (p.1 : Int), by
        simp only [get_image_size, hw, if_neg h1, if_neg h2, hj]⟩
    | error e =>
      exact ⟨none, none, by
        simp only [get_image_size, hw, if_neg h1, if_neg h2, hj]⟩
  · intro data hw
    simp only [get_image_size, hw]
    split <;> rfl
  · intro data hw hlen
    have h8 : (data.take 24).take 8 = pngSig := imghdr_png_take8 _ hw
    have hck : bytesAt (data.take 24) 4 4 = [0x0D, 0x0A, 0x1A, 0x0A] := by
      have h' : bytesAt (data.take 24) 4 4 = ((data.take 24).take 8).drop 4 := rfl
      rw [h', h8]; rfl
    have hbe : be32s [(13 : Nat), 10, 26, 10] = Except.ok 218765834 := rfl
    have hlen24 : (data.take 24).length = data.length := by rw [List.length_take]; omega
    rcases Nat.lt_or_ge data.length 20 with hsmall | hbig
    · have e1 : be32s (bytesAt (data.take 24) 16 4) = .error "struct.error" := by
        apply be32s_err
        rw [length_bytesAt, hlen24]
        omega
      simp only [get_image_size, hw, if_pos rfl, hbe, hck, e1, ite_true,
        if_neg (by decide : ¬ ((218765834 : Int) ≠ (218765834 : Int)))]
    · have e1 : (bytesAt (data.take 24) 16 4).length = 4 := by
        rw [length_bytesAt, hlen24]; omega
      obtain ⟨v, hv⟩ := be32s_ok _ e1
      have e2 : be32s (bytesAt (data.take 24) 20 4) = .error "struct.error" := by
        apply be32s_err
        rw [length_bytesAt, hlen24]
        omega
      simp only [get_image_size, hw, if_pos rfl, hbe, hck, hv, e2, ite_true,
        if_neg (by decide : ¬ ((218765834 : Int) ≠ (218765834 : Int)))]
  · intro data hw hlen
    have hlen24 : (data.take 24).length = data.length := by rw [List.length_take]; omega
    have e1 : le16x2 (bytesAt (data.take 24) 6 4) = .error "struct.error" := by
      apply le16x2_err
      rw [length_bytesAt, hlen24]
      omega
    have h1 : ¬ (("gif" : String) = "png") := by decide
    simp only [get_image_size, hw, if_neg h1, if_pos rfl, e1, ite_true]

/-- C2, witness: the amended theorem applied at a corrupt JFIF header, an
unrecognizable header, a 10-byte truncated PNG header, and a 6-byte
truncated GIF header. -/
theorem C2_amended_witness :
    (∃ w h, get_image_size [0xFF, 0xD8, 0, 0, 0, 0, 0x4A, 0x46, 0x49, 0x46] =
      .ok (w, h, some "jpeg")) ∧
    get_image_size [1, 2, 3] = .ok (none, none, none) ∧
    get_image_size (pngSig ++ [0, 0]) = .error "struct.error" ∧
    get_image_size gif89Magic = .error "struct.error" :=
  ⟨C2_amended.1 _ (by decide), C2_amended.2.1 _ (by decide),
   C2_amended.2.2.1 _ (by decide) (by decide), C2_amended.2.2.2 _ (by decide) (by decide)⟩

/-! ## Claim C5 — the maximum-width scaling law -/

/-- C5, confirmed.  With no explicit attribute block, both detected
dimensions positive and `max_width` set: if `w > max_width` the computed
attributes are exactly `width = max_width`, `height = h * (max_width / w)`,
and the aspect ratio is preserved (`newH / newW = h / w`); if
`w ≤ max_width` the detected dimensions are used unchanged. -/
theorem C5_scaling (w h mw : ℚ) (hw : 0 < w) (hh : 0 < h) (hmw : 0 < mw) :
    (mw < w →
      get_adjusted_img_attributes "" (some h) (some w) mw =
        .ok (.computed mw (h * (mw / w))) ∧
      (h * (mw / w)) / mw = h / w) ∧
    (w ≤ mw →
      get_adjusted_img_attributes "" (some h) (some w) mw = .ok (.computed w h)) := by
  constructor
  · intro hlt
    constructor
    · simp only [get_adjusted_img_attributes, ne_eq, not_true_eq_false, if_false, if_pos hw,
        if_pos hh, if_pos (And.intro (ne_of_gt hmw) hlt)]
    · field_simp; ring
  · intro hle
    have hcond : ¬ (mw ≠ 0 ∧ mw < w) := by
      rintro ⟨-, hlt⟩
      exact absurd hle (not_le.mpr hlt)
    simp only [get_adjusted_img_attributes, ne_eq, not_true_eq_false, if_false, if_pos hw,
      if_pos hh, if_neg hcond]

/-- C5, witness: a 2000×1000 image capped at width 1024, and a 100×50 image
below the cap. -/
theorem C5_scaling_witness :
    (get_adjusted_img_attributes "" (some 1000) (some 2000) 1024 =
        .ok (.computed 1024 (1000 * (1024 / 2000))) ∧
      ((1000 : ℚ) * (1024 / 2000)) / 1024 = 1000 / 2000) ∧
    get_adjusted_img_attributes "" (some 50) (some 100) 1024 = .ok (.computed 100 50) :=
  ⟨(C5_scaling 2000 1000 1024 (by norm_num) (by norm_num) (by norm_num)).1 (by norm_num),
   (C5_scaling 100 50 1024 (by norm_num) (by norm_num) (by norm_num)).2 (by norm_num)⟩

/-! ## Claim C6 — the PNG branch of the sniffer -/

/-- C6, counterexample.  The claim states that a header detected as PNG with
a valid `[4:8]` field yields the width/height at `[16:20)`/`[20:24)`.  A
detected PNG header of 16 bytes satisfies the `[4:8]` check but raises
`struct.error` instead of returning any tuple. -/
theorem C6_counterexample :
    get_image_size (pngSig ++ [0, 0, 0, 13, 73, 72, 68, 82]) = .error "struct.error" := rfl

/-- C6, amended.  For every header detected as PNG, the `[4:8]` big-endian
field necessarily equals `0x0D0A1A0A` (detection requires the full 8-byte
signature, so the mismatch branch returning `(None, None, "png")` is
unreachable), and when at least 24 bytes are present the sniffer returns the
two big-endian 32-bit integers at `[16:20)` and `[20:24)` with format
`"png"`. -/
theorem C6_amended :
    ∀ data : List Nat, imghdr_what (data.take 24) = some "png" → 24 ≤ data.length →
      be32s (bytesAt (data.take 24) 4 4) = .ok 0x0d0a1a0a ∧
      ∃ w h, be32s (bytesAt (data.take 24) 16 4) = .ok w ∧
        be32s (bytesAt (data.take 24) 20 4) = .ok h ∧
        get_image_size data = .ok (some w, some h, some "png") := by
  intro data hw hlen
  have h8 : (data.take 24).take 8 = pngSig := imghdr_png_take8 _ hw
  have hck : bytesAt (data.take 24) 4 4 = [0x0D, 0x0A, 0x1A, 0x0A] := by
    have h' : bytesAt (data.take 24) 4 4 = ((data.take 24).take 8).drop 4 := rfl
    rw [h', h8]; rfl
  have hlen24 : (data.take 24).length = 24 := by rw [List.length_take]; omega
  have l1 : (bytesAt (data.take 24) 16 4).length = 4 := by
    rw [length_bytesAt, hlen24]; decide
  have l2 : (bytesAt (data.take 24) 20 4).length = 4 := by
    rw [length_bytesAt, hlen24]; decide
  obtain ⟨wv, hwv⟩ := be32s_ok _ l1
  obtain ⟨hv, hhv⟩ := be32s_ok _ l2
  have hbe : be32s [(13 : Nat), 10, 26, 10] = Except.ok 218765834 := rfl
  refine ⟨by rw [hck]; rfl, wv, hv, hwv, hhv, ?_⟩
  simp only [get_image_size, hw, if_pos rfl, hck, hbe, hwv, hhv, ite_true,
    if_neg (by decide : ¬ ((218765834 : Int) ≠ (218765834 : Int)))]

/-- C6, witness: the amended theorem at a complete 3×5 PNG header. -/
theorem C6_amended_witness :
    be32s (bytesAt (png24ex.take 24) 4 4) = .ok 0x0d0a1a0a ∧
    ∃ w h, be32s (bytesAt (png24ex.take 24) 16 4) = .ok w ∧
      be32s (bytesAt (png24ex.take 24) 20 4) = .ok h ∧
      get_image_size png24ex = .ok (some w, some h, some "png") :=
  C6_amended png24ex (by decide) (by decide)

/-! ## Claim C7 — how much of the stream the sniffer consumes -/

/-- C7, counterexample.  The claim states the sniffer consumes at most the
first 24 bytes; then its result would be determined by the first 24 bytes.
Two JFIF streams identical in their first 24 bytes but with different
dimension bytes at offsets 31–34 produce different results: the JPEG branch
seeks back to the start and scans marker segments past offset 24. -/
theorem C7_counterexample :
    (jpegBase ++ [0, 1, 0, 2]).take 24 = (jpegBase ++ [0, 3, 0, 4]).take 24 ∧
    get_image_size (jpegBase ++ [0, 1, 0, 2]) ≠ get_image_size (jpegBase ++ [0, 3, 0, 4]) := by
  constructor
  · rfl
  · decide

/-- C7, amended.  For every format other than JPEG (PNG, GIF, SVG,
unrecognized), the sniffer's result depends only on the first 24 bytes of
the stream; only the JPEG branch reads further. -/
theorem C7_amended :
    ∀ d1 d2 : List Nat, d1.take 24 = d2.take 24 →
      imghdr_what (d1.take 24) ≠ some "jpeg" →
      get_image_size d1 = get_image_size d2 := by
  intro d1 d2 h24 hnj
  rw [h24] at hnj
  simp only [get_image_size, h24]
  cases hw : imghdr_what (d2.take 24) with
  | none => rfl
  | some ft =>
    rcases imghdr_what_cases _ _ hw with hft | hft | hft
    · exact absurd (hft ▸ hw) hnj
    · subst hft; rfl
    · subst hft; rfl

/-- C7, witness: two PNG streams agreeing on their first 24 bytes. -/
theorem C7_amended_witness :
    (png24ex ++ [9]).take 24 = (png24ex ++ [7]).take 24 ∧
    get_image_size (png24ex ++ [9]) = get_image_size (png24ex ++ [7]) :=
  ⟨by decide, C7_amended _ _ (by decide) (by decide)⟩


/-! ## Lemmas about the render-pass state machine -/

theorem find?_filter_ne {α : Type} {β : Type} [BEq α] [LawfulBEq α]
    (c : List (α × β)) (k k' : α) (h : ¬ k' = k) :
    (c.filter (fun kv => kv.1 != k)).find? (fun kv => kv.1 == k') =
      c.find? (fun kv => kv.1 == k') := by
  induction c with
  | nil => rfl
  | cons kv c ih =>
    by_cases hk : kv.1 = k
    · have h1 : (kv.1 != k) = false := by simp [hk]
      have h2 : (kv.1 == k') = false := by
        simp only [beq_eq_false_iff_ne, ne_eq, hk]
        exact fun he => h he.symm
      simp only [List.filter_cons, h1, if_false, List.find?_cons, h2]
      exact ih
    · have h1 : (kv.1 != k) = true := by simp [hk]
      simp only [List.filter_cons, h1, if_true, List.find?_cons]
      cases hc : (kv.1 == k') with
      | true => simp only [hc]
      | false => simp only [hc]; exact ih

theorem cacheGet_insert (c : Cache) (k k' : String) (v : List Nat) :
    cacheGet (cacheInsert c k v) k' = if k' = k then some v else cacheGet c k' := by
  unfold cacheGet cacheInsert
  by_cases h : k' = k
  · subst h
    simp only [if_pos rfl, List.find?_cons, beq_self_eq_true]
    rfl
  · have h3 : (k == k') = false := by
      simp only [beq_eq_false_iff_ne, ne_eq]
      exact fun he => h he.symm
    rw [if_neg h]
    simp only [List.find?_cons, h3]
    rw [find?_filter_ne _ _ _ h]

theorem dictGet_insert (d : List (Nat × Phantom)) (k k' : Nat) (v : Phantom) :
    dictGet (dictInsert d k v) k' = if k' = k then some v else dictGet d k' := by
  unfold dictGet dictInsert
  by_cases h : k' = k
  · subst h
    simp only [if_pos rfl, List.find?_cons, beq_self_eq_true]
    rfl
  · have h3 : (k == k') = false := by
      simp only [beq_eq_false_iff_ne, ne_eq]
      exact fun he => h he.symm
    rw [if_neg h]
    simp only [List.find?_cons, h3]
    rw [find?_filter_ne _ _ _ h]

theorem prepare_remote_coherent (env : Env) (c : Cache) (hc : CacheCoherent env c)
    (rel_p : String) (sr : Bool) (url : Url) :
    prepare_remote_image env rel_p sr url c = prepare_remote_image env rel_p sr url [] := by
  unfold prepare_remote_image
  have hfetch :
      (match cacheGet c rel_p with
       | some d => if d.isEmpty then env.net rel_p else Except.ok d
       | none => env.net rel_p) =
      (match cacheGet ([] : Cache) rel_p with
       | some d => if d.isEmpty then env.net rel_p else Except.ok d
       | none => env.net rel_p) := by
    cases hg : cacheGet c rel_p with
    | none => rfl
    | some d =>
      dsimp only
      by_cases hd : d.isEmpty
      · rw [if_pos hd]
        rfl
      · rw [if_neg hd]
        exact ((hc rel_p d hg (by simpa using hd)).symm).trans rfl
  rw [hfetch]

theorem computeSpan_coherent (env : Env) (sl sr : Bool) (bp : String) (mw : ℚ)
    (doc : List Char) (c : Cache) (hc : CacheCoherent env c) (r : Region) :
    computeSpan env sl sr bp mw doc c r = computeSpan env sl sr bp mw doc [] r := by
  unfold computeSpan
  simp only [prepare_remote_coherent env c hc]

section

variable (env : Env) (sl sr : Bool) (bp : String) (mw : ℚ) (doc : List Char)

theorem processRegion_skip (ls : LoopState) (r : Region)
    (h : computeSpan env sl sr bp mw doc ls.cache r = .ok .skip) :
    processRegion env sl sr bp mw doc ls r = .ok ls := by
  unfold processRegion
  rw [h]

theorem processRegion_error (ls : LoopState) (r : Region) (m : String)
    (h : computeSpan env sl sr bp mw doc ls.cache r = .error m) :
    processRegion env sl sr bp mw doc ls r = .error m := by
  unfold processRegion
  rw [h]

theorem processRegion_present (ls : LoopState) (r : Region) (k : Nat) (html : Html)
    (rk : String) (idata : Option (List Nat))
    (h : computeSpan env sl sr bp mw doc ls.cache r = .ok (.render k html rk idata))
    (hm : ((k, html) : Phantom) ∈ ls.stored) :
    processRegion env sl sr bp mw doc ls r =
      .ok { ls with dict := dictInsert ls.dict k (k, html) } := by
  unfold processRegion
  rw [h]
  dsimp only
  rw [if_pos hm]

theorem processRegion_absent (ls : LoopState) (r : Region) (k : Nat) (html : Html)
    (rk : String) (idata : Option (List Nat))
    (h : computeSpan env sl sr bp mw doc ls.cache r = .ok (.render k html rk idata))
    (hm : ((k, html) : Phantom) ∉ ls.stored) :
    processRegion env sl sr bp mw doc ls r =
      .ok { dict := dictInsert ls.dict k (k, html)
            stored := ls.stored ++ [(k, html)]
            cache := idata.elim ls.cache (fun d => cacheInsert ls.cache rk d)
            ops := ls.ops ++ [Op.add k html] } := by
  cases idata with
  | none =>
    unfold processRegion
    rw [h]
    dsimp only
    rw [if_neg hm]
    rfl
  | some d =>
    unfold processRegion
    rw [h]
    dsimp only
    rw [if_neg hm]
    rfl

theorem showImagesLoop_nil (ls : LoopState) :
    showImagesLoop env sl sr bp mw doc [] ls = (ls, none) := rfl

theorem showImagesLoop_cons (r : Region) (rest : List Region) (ls : LoopState) :
    showImagesLoop env sl sr bp mw doc (r :: rest) ls =
      match processRegion env sl sr bp mw doc ls r with
      | .error m => (ls, some m)
      | .ok ls' => showImagesLoop env sl sr bp mw doc rest ls' := rfl

/-- `prepare_local_image` never returns remote bytes. -/
theorem prepare_local_image_data_none (base_path drive : String) (url : Url)
    (src : ImgSrc) (hh ww : Option Int) (ft : Option String) (url' : Url)
    (idata : Option (List Nat))
    (h : prepare_local_image env base_path drive sl url = .ok src hh ww ft url' idata) :
    idata = none := by
  unfold prepare_local_image at h
  split at h
  · cases h
  · dsimp only at h
    split at h
    · cases h
    · simp only [PrepResult.ok.injEq] at h
      exact h.2.2.2.2.2.symm

/-- On a coherent cache, the remote bytes a successful
`prepare_remote_image` returns are what the network yields for the URL. -/
theorem prepare_remote_net (rel_p : String) (url : Url) (c : Cache)
    (src : ImgSrc) (hh ww : Option Int) (ft : Option String) (url' : Url) (d : List Nat)
    (hc : CacheCoherent env c)
    (h : prepare_remote_image env rel_p sr url c = .ok src hh ww ft url' (some d)) :
    env.net rel_p = .ok d := by
  unfold prepare_remote_image at h
  split at h
  · cases h
  · split at h
    · cases h
    · dsimp only at h
      cases hg : cacheGet c rel_p with
      | none =>
        rw [hg] at h
        dsimp only at h
        cases hn : env.net rel_p with
        | error e => rw [hn] at h; cases h
        | ok bs =>
          rw [hn] at h
          dsimp only at h
          split at h
          · cases h
          · simp only [PrepResult.ok.injEq, Option.some.injEq] at h
            rw [h.2.2.2.2.2]
      | some d0 =>
        rw [hg] at h
        dsimp only at h
        by_cases hd0 : d0.isEmpty
        · rw [if_pos hd0] at h
          cases hn : env.net rel_p with
          | error e => rw [hn] at h; cases h
          | ok bs =>
            rw [hn] at h
            dsimp only at h
            split at h
            · cases h
            · simp only [PrepResult.ok.injEq, Option.some.injEq] at h
              rw [h.2.2.2.2.2]
        · rw [if_neg hd0] at h
          dsimp only at h
          split at h
          · cases h
          · simp only [PrepResult.ok.injEq, Option.some.injEq] at h
            rw [← h.2.2.2.2.2]
            exact hc rel_p d0 hg (by simpa using hd0)

/-- A nonempty cache hit is returned unchanged by `prepare_remote_image`. -/
theorem prepare_remote_hit (rel_p : String) (url : Url) (c : Cache) (d : List Nat)
    (src : ImgSrc) (hh ww : Option Int) (ft : Option String) (url' : Url) (d' : List Nat)
    (hg : cacheGet c rel_p = some d) (hd : d ≠ [])
    (h : prepare_remote_image env rel_p sr url c = .ok src hh ww ft url' (some d')) :
    d' = d := by
  unfold prepare_remote_image at h
  split at h
  · cases h
  · split at h
    · cases h
    · dsimp only at h
      rw [hg] at h
      dsimp only at h
      rw [if_neg (by simpa using hd)] at h
      dsimp only at h
      split at h
      · cases h
      · simp only [PrepResult.ok.injEq, Option.some.injEq] at h
        exact h.2.2.2.2.2.symm

end


section

variable (env : Env) (sl sr : Bool) (bp : String) (mw : ℚ) (doc : List Char)

/-- Inversion for a rendering span: either it went through the remote branch
with `rk` as URL, or it is local and carries no remote bytes. -/
theorem computeSpan_render_inv (c : Cache) (r : Region) (k : Nat) (html : Html)
    (rk : String) (idata : Option (List Nat))
    (h : computeSpan env sl sr bp mw doc c r = .ok (.render k html rk idata)) :
    (((env.urlparse rk).scheme ≠ "" ∧ (env.urlparse rk).scheme ≠ "file") ∧
      ∃ src hh ww ft url',
        prepare_remote_image env rk sr (env.urlparse rk) c = .ok src hh ww ft url' idata) ∨
    idata = none := by
  unfold computeSpan at h
  split at h
  · cases h
  · dsimp only at h
    split at h
    · cases h
    · cases h
    · rename_i img_src hh ww ft url' image_data heq
      split at h
      · cases h
      · split at h
        · cases h
        · simp only [Except.ok.injEq, SpanStep.render.injEq] at h
          obtain ⟨-, -, hrk, hidata⟩ := h
          subst hrk
          subst hidata
          split at heq
          · rename_i hrem
            exact Or.inl ⟨hrem, img_src, hh, ww, ft, url', heq⟩
          · exact Or.inr
              (prepare_local_image_data_none env sl bp _ _ _ _ _ _ _ _ heq)

theorem computeSpan_net (c : Cache) (r : Region) (k : Nat) (html : Html) (rk : String)
    (d : List Nat) (hc : CacheCoherent env c)
    (h : computeSpan env sl sr bp mw doc c r = .ok (.render k html rk (some d))) :
    env.net rk = .ok d := by
  rcases computeSpan_render_inv env sl sr bp mw doc c r k html rk (some d) h with
    ⟨h1, src, hh, ww, ft, url', heq⟩ | hnone
  · exact prepare_remote_net env sr rk _ c src hh ww ft url' d hc heq
  · cases hnone

theorem computeSpan_hit (c : Cache) (r : Region) (k : Nat) (html : Html) (rk : String)
    (d d' : List Nat)
    (hg : cacheGet c rk = some d) (hd : d ≠ [])
    (h : computeSpan env sl sr bp mw doc c r = .ok (.render k html rk (some d'))) :
    d' = d := by
  rcases computeSpan_render_inv env sl sr bp mw doc c r k html rk (some d') h with
    ⟨h1, src, hh, ww, ft, url', heq⟩ | hnone
  · exact prepare_remote_hit env sr rk _ c d src hh ww ft url' d' hg hd heq
  · cases hnone

theorem processRegion_coherent (ls ls' : LoopState) (r : Region)
    (hc : CacheCoherent env ls.cache)
    (h : processRegion env sl sr bp mw doc ls r = .ok ls') :
    CacheCoherent env ls'.cache := by
  unfold processRegion at h
  cases hcs : computeSpan env sl sr bp mw doc ls.cache r with
  | error e => rw [hcs] at h; cases h
  | ok step =>
    rw [hcs] at h
    cases step with
    | skip => cases h; exact hc
    | render k html rk idata =>
      dsimp only at h
      by_cases hm : ((k, html) : Phantom) ∈ ls.stored
      · rw [if_pos hm] at h
        cases h
        exact hc
      · rw [if_neg hm] at h
        cases h
        cases idata with
        | none => exact hc
        | some d =>
          intro k' d' hk' hd'
          rw [cacheGet_insert] at hk'
          by_cases hkk : k' = rk
          · rw [if_pos hkk] at hk'
            cases hk'
            subst hkk
            exact computeSpan_net env sl sr bp mw doc ls.cache r k html k' d hc hcs
          · rw [if_neg hkk] at hk'
            exact hc k' d' hk' hd'

theorem processRegion_cache_preserved (ls ls' : LoopState) (r : Region) (k : String)
    (d : List Nat) (hg : cacheGet ls.cache k = some d) (hd : d ≠ [])
    (h : processRegion env sl sr bp mw doc ls r = .ok ls') :
    cacheGet ls'.cache k = some d := by
  unfold processRegion at h
  cases hcs : computeSpan env sl sr bp mw doc ls.cache r with
  | error e => rw [hcs] at h; cases h
  | ok step =>
    rw [hcs] at h
    cases step with
    | skip => cases h; exact hg
    | render k' html rk idata =>
      dsimp only at h
      by_cases hm : ((k', html) : Phantom) ∈ ls.stored
      · rw [if_pos hm] at h
        cases h
        exact hg
      · rw [if_neg hm] at h
        cases h
        cases idata with
        | none => exact hg
        | some d' =>
          rw [cacheGet_insert]
          by_cases hkk : k = rk
          · rw [if_pos hkk]
            subst hkk
            rw [computeSpan_hit env sl sr bp mw doc ls.cache r k' html k d d' hg hd hcs]
          · rw [if_neg hkk]
            exact hg

theorem loop_cache_preserved (regs : List Region) (ls : LoopState) (k : String)
    (d : List Nat) (hg : cacheGet ls.cache k = some d) (hd : d ≠ []) :
    cacheGet (showImagesLoop env sl sr bp mw doc regs ls).1.cache k = some d := by
  induction regs generalizing ls with
  | nil => exact hg
  | cons r rest ih =>
    rw [showImagesLoop_cons]
    cases hp : processRegion env sl sr bp mw doc ls r with
    | error m => exact hg
    | ok ls' =>
      exact ih ls' (processRegion_cache_preserved env sl sr bp mw doc ls ls' r k d hg hd hp)

theorem loop_coherent (regs : List Region) (ls : LoopState)
    (hc : CacheCoherent env ls.cache) :
    CacheCoherent env (showImagesLoop env sl sr bp mw doc regs ls).1.cache := by
  induction regs generalizing ls with
  | nil => exact hc
  | cons r rest ih =>
    rw [showImagesLoop_cons]
    cases hp : processRegion env sl sr bp mw doc ls r with
    | error m => exact hc
    | ok ls' =>
      exact ih ls' (processRegion_coherent env sl sr bp mw doc ls ls' r hc hp)

end


section

variable (env : Env) (sl sr : Bool) (bp : String) (mw : ℚ) (doc : List Char)

/-- The stored phantom set only grows during the loop (also on abort). -/
theorem loop_stored_mono (regs : List Region) (ls : LoopState) (p : Phantom)
    (hp : p ∈ ls.stored) :
    p ∈ (showImagesLoop env sl sr bp mw doc regs ls).1.stored := by
  induction regs generalizing ls with
  | nil => exact hp
  | cons r rest ih =>
    rw [showImagesLoop_cons]
    cases hpr : processRegion env sl sr bp mw doc ls r with
    | error m => exact hp
    | ok ls' =>
      apply ih
      unfold processRegion at hpr
      cases hcs : computeSpan env sl sr bp mw doc ls.cache r with
      | error e => rw [hcs] at hpr; cases hpr
      | ok step =>
        rw [hcs] at hpr
        cases step with
        | skip => cases hpr; exact hp
        | render k html rk idata =>
          dsimp only at hpr
          by_cases hm : ((k, html) : Phantom) ∈ ls.stored
          · rw [if_pos hm] at hpr; cases hpr; exact hp
          · rw [if_neg hm] at hpr; cases hpr
            exact List.mem_append_left _ hp

/-- The stored phantom set stays duplicate-free (also on abort). -/
theorem loop_stored_nodup (regs : List Region) (ls : LoopState)
    (hn : ls.stored.Nodup) :
    (showImagesLoop env sl sr bp mw doc regs ls).1.stored.Nodup := by
  induction regs generalizing ls with
  | nil => exact hn
  | cons r rest ih =>
    rw [showImagesLoop_cons]
    cases hpr : processRegion env sl sr bp mw doc ls r with
    | error m => exact hn
    | ok ls' =>
      apply ih
      unfold processRegion at hpr
      cases hcs : computeSpan env sl sr bp mw doc ls.cache r with
      | error e => rw [hcs] at hpr; cases hpr
      | ok step =>
        rw [hcs] at hpr
        cases step with
        | skip => cases hpr; exact hn
        | render k html rk idata =>
          dsimp only at hpr
          by_cases hm : ((k, html) : Phantom) ∈ ls.stored
          · rw [if_pos hm] at hpr; cases hpr; exact hn
          · rw [if_neg hm] at hpr; cases hpr
            dsimp only
            rw [List.nodup_append]
            exact ⟨hn, List.nodup_singleton _, by simpa using hm⟩

/-- A completed loop has every span resolving without exception (against the
starting coherent cache, the outcomes coincide with the empty-cache ones). -/
theorem loop_ok_pure (regs : List Region) (ls : LoopState)
    (hc : CacheCoherent env ls.cache)
    (hdone : (showImagesLoop env sl sr bp mw doc regs ls).2 = none) :
    ∀ r ∈ regs, ∃ o, computeSpan env sl sr bp mw doc [] r = .ok o := by
  induction regs generalizing ls with
  | nil => intro r hr; cases hr
  | cons r0 rest ih =>
    rw [showImagesLoop_cons] at hdone
    cases hpr : processRegion env sl sr bp mw doc ls r0 with
    | error m => rw [hpr] at hdone; cases hdone
    | ok ls' =>
      rw [hpr] at hdone
      intro r hr
      rcases List.mem_cons.mp hr with rfl | hr'
      · unfold processRegion at hpr
        cases hcs : computeSpan env sl sr bp mw doc ls.cache r with
        | error e => rw [hcs] at hpr; cases hpr
        | ok o =>
          exact ⟨o, (computeSpan_coherent env sl sr bp mw doc ls.cache hc r).symm.trans hcs⟩
      · exact ih ls' (processRegion_coherent env sl sr bp mw doc ls ls' r0 hc hpr) hdone r hr'

/-- On a completed loop from a coherent cache, the final per-pass dict is
the pure fold `dictRun`. -/
theorem loop_dict (regs : List Region) (ls : LoopState)
    (hc : CacheCoherent env ls.cache)
    (hdone : (showImagesLoop env sl sr bp mw doc regs ls).2 = none) :
    (showImagesLoop env sl sr bp mw doc regs ls).1.dict =
      dictRun env sl sr bp mw doc ls.dict regs := by
  induction regs generalizing ls with
  | nil => rfl
  | cons r0 rest ih =>
    rw [showImagesLoop_cons] at hdone ⊢
    cases hpr : processRegion env sl sr bp mw doc ls r0 with
    | error m => rw [hpr] at hdone; cases hdone
    | ok ls' =>
      rw [hpr] at hdone
      have hcoh' := processRegion_coherent env sl sr bp mw doc ls ls' r0 hc hpr
      have hih := ih ls' hcoh' hdone
      rw [hih]
      unfold dictRun
      rw [List.foldl_cons]
      unfold processRegion at hpr
      rw [computeSpan_coherent env sl sr bp mw doc ls.cache hc r0] at hpr
      cases hcs : computeSpan env sl sr bp mw doc [] r0 with
      | error e => rw [hcs] at hpr; cases hpr
      | ok step =>
        rw [hcs] at hpr
        cases step with
        | skip => cases hpr; rfl
        | render k html rk idata =>
          dsimp only at hpr
          by_cases hm : ((k, html) : Phantom) ∈ ls.stored
          · rw [if_pos hm] at hpr; cases hpr; rfl
          · rw [if_neg hm] at hpr; cases hpr; rfl

/-- On a completed loop from a coherent cache, every rendered span's phantom
ends up in the stored set. -/
theorem loop_render_stored (regs : List Region) (ls : LoopState)
    (hc : CacheCoherent env ls.cache)
    (hdone : (showImagesLoop env sl sr bp mw doc regs ls).2 = none) :
    ∀ r ∈ regs, ∀ k html rk idata,
      computeSpan env sl sr bp mw doc [] r = .ok (.render k html rk idata) →
      ((k, html) : Phantom) ∈ (showImagesLoop env sl sr bp mw doc regs ls).1.stored := by
  induction regs generalizing ls with
  | nil => intro r hr; cases hr
  | cons r0 rest ih =>
    rw [showImagesLoop_cons] at hdone ⊢
    cases hpr : processRegion env sl sr bp mw doc ls r0 with
    | error m => rw [hpr] at hdone; cases hdone
    | ok ls' =>
      rw [hpr] at hdone
      have hcoh' := processRegion_coherent env sl sr bp mw doc ls ls' r0 hc hpr
      intro r hr k html rk idata hcs
      rcases List.mem_cons.mp hr with rfl | hr'
      · -- the head region: its phantom is in ls'.stored
        have hcs' : computeSpan env sl sr bp mw doc ls.cache r = .ok (.render k html rk idata) :=
          (computeSpan_coherent env sl sr bp mw doc ls.cache hc r).trans hcs
        have hmem : ((k, html) : Phantom) ∈ ls'.stored := by
          unfold processRegion at hpr
          rw [hcs'] at hpr
          dsimp only at hpr
          by_cases hm : ((k, html) : Phantom) ∈ ls.stored
          · rw [if_pos hm] at hpr; cases hpr; exact hm
          · rw [if_neg hm] at hpr; cases hpr
            exact List.mem_append_right _ (List.mem_singleton_self _)
        exact loop_stored_mono env sl sr bp mw doc rest ls' _ hmem
      · exact ih ls' hcoh' hdone r hr' k html rk idata hcs

end


section

variable (env : Env) (sl sr : Bool) (bp : String) (mw : ℚ) (doc : List Char)

/-- Reducing `spanKeys` over a cons. -/
theorem spanKeys_cons (r : Region) (rest : List Region) :
    spanKeys env sl sr bp mw doc (r :: rest) =
      (match computeSpan env sl sr bp mw doc [] r with
       | .ok (.render k _ _ _) => some k
       | _ => none).elim (spanKeys env sl sr bp mw doc rest)
        (fun k => k :: spanKeys env sl sr bp mw doc rest) := by
  unfold spanKeys
  rw [List.filterMap_cons]
  cases computeSpan env sl sr bp mw doc [] r with
  | error e => rfl
  | ok step => cases step <;> rfl

/-- Reducing `dictRun` over a cons. -/
theorem dictRun_cons (r : Region) (rest : List Region) (d0 : List (Nat × Phantom)) :
    dictRun env sl sr bp mw doc d0 (r :: rest) =
      dictRun env sl sr bp mw doc
        (match computeSpan env sl sr bp mw doc [] r with
         | .ok (.render k html _ _) => dictInsert d0 k (k, html)
         | _ => d0) rest := rfl

/-- A key not produced by any span of `regs` is untouched by `dictRun`. -/
theorem dictRun_get_not_mem (regs : List Region) (d0 : List (Nat × Phantom)) (k : Nat)
    (hk : k ∉ spanKeys env sl sr bp mw doc regs) :
    dictGet (dictRun env sl sr bp mw doc d0 regs) k = dictGet d0 k := by
  induction regs generalizing d0 with
  | nil => rfl
  | cons r rest ih =>
    rw [spanKeys_cons] at hk
    rw [dictRun_cons]
    cases hcs : computeSpan env sl sr bp mw doc [] r with
    | error e =>
      rw [hcs] at hk
      dsimp only at hk ⊢
      exact ih d0 hk
    | ok step =>
      rw [hcs] at hk
      cases step with
      | skip =>
        dsimp only at hk ⊢
        exact ih d0 hk
      | render k' html rk idata =>
        dsimp only [Option.elim] at hk ⊢
        have hkk : ¬ k = k' := fun he => hk (he ▸ List.mem_cons_self _ _)
        have hrest : k ∉ spanKeys env sl sr bp mw doc rest :=
          fun hm => hk (List.mem_cons_of_mem _ hm)
        rw [ih _ hrest, dictGet_insert, if_neg hkk]

/-- Under pairwise-distinct span keys, `dictRun` maps every rendered span's
key to exactly its phantom. -/
theorem dictRun_get_render (regs : List Region) (d0 : List (Nat × Phantom))
    (hnd : (spanKeys env sl sr bp mw doc regs).Nodup) :
    ∀ r ∈ regs, ∀ k html rk idata,
      computeSpan env sl sr bp mw doc [] r = .ok (.render k html rk idata) →
      dictGet (dictRun env sl sr bp mw doc d0 regs) k = some (k, html) := by
  induction regs generalizing d0 with
  | nil => intro r hr; cases hr
  | cons r0 rest ih =>
    intro r hr k html rk idata hcs
    rw [spanKeys_cons] at hnd
    rw [dictRun_cons]
    rcases List.mem_cons.mp hr with rfl | hr'
    · rw [hcs] at hnd ⊢
      dsimp only [Option.elim] at hnd ⊢
      have hk : k ∉ spanKeys env sl sr bp mw doc rest := (List.nodup_cons.mp hnd).1
      rw [dictRun_get_not_mem env sl sr bp mw doc rest _ k hk, dictGet_insert, if_pos rfl]
    · cases hcs0 : computeSpan env sl sr bp mw doc [] r0 with
      | error e =>
        rw [hcs0] at hnd
        dsimp only at hnd ⊢
        exact ih d0 hnd r hr' k html rk idata hcs
      | ok step =>
        rw [hcs0] at hnd
        cases step with
        | skip =>
          dsimp only at hnd ⊢
          exact ih d0 hnd r hr' k html rk idata hcs
        | render k0 html0 rk0 idata0 =>
          dsimp only [Option.elim] at hnd ⊢
          exact ih _ (List.nodup_cons.mp hnd).2 r hr' k html rk idata hcs

/-- If every rendered phantom of `regs` is already stored, the loop only
rebuilds the dict: it adds nothing, erases nothing, caches nothing. -/
theorem loop_all_present (regs : List Region) (ls : LoopState)
    (hc : CacheCoherent env ls.cache)
    (hok : ∀ r ∈ regs, ∃ o, computeSpan env sl sr bp mw doc [] r = .ok o)
    (hmem : ∀ r ∈ regs, ∀ k html rk idata,
      computeSpan env sl sr bp mw doc [] r = .ok (.render k html rk idata) →
      ((k, html) : Phantom) ∈ ls.stored) :
    showImagesLoop env sl sr bp mw doc regs ls =
      ({ ls with dict := dictRun env sl sr bp mw doc ls.dict regs }, none) := by
  induction regs generalizing ls with
  | nil => rfl
  | cons r0 rest ih =>
    rw [showImagesLoop_cons]
    obtain ⟨o, ho⟩ := hok r0 (List.mem_cons_self _ _)
    have ho' : computeSpan env sl sr bp mw doc ls.cache r0 = .ok o :=
      (computeSpan_coherent env sl sr bp mw doc ls.cache hc r0).trans ho
    rw [dictRun_cons, ho]
    cases o with
    | skip =>
      rw [processRegion_skip env sl sr bp mw doc ls r0 ho']
      exact ih ls hc (fun r hr => hok r (List.mem_cons_of_mem _ hr))
        (fun r hr => hmem r (List.mem_cons_of_mem _ hr))
    | render k html rk idata =>
      have hm : ((k, html) : Phantom) ∈ ls.stored :=
        hmem r0 (List.mem_cons_self _ _) k html rk idata ho
      rw [processRegion_present env sl sr bp mw doc ls r0 k html rk idata ho' hm]
      exact ih { ls with dict := dictInsert ls.dict k (k, html) } hc
        (fun r hr => hok r (List.mem_cons_of_mem _ hr))
        (fun r hr => hmem r (List.mem_cons_of_mem _ hr))

end


/-- If every span of `regs` resolves without exception, the loop completes. -/
theorem loop_ok_of_pure (env : Env) (sl sr : Bool) (bp : String) (mw : ℚ) (doc : List Char)
    (regs : List Region) (ls : LoopState)
    (hc : CacheCoherent env ls.cache)
    (hok : ∀ r ∈ regs, ∃ o, computeSpan env sl sr bp mw doc [] r = .ok o) :
    (showImagesLoop env sl sr bp mw doc regs ls).2 = none := by
  induction regs generalizing ls with
  | nil => rfl
  | cons r0 rest ih =>
    rw [showImagesLoop_cons]
    obtain ⟨o, ho⟩ := hok r0 (List.mem_cons_self _ _)
    have ho' : computeSpan env sl sr bp mw doc ls.cache r0 = .ok o :=
      (computeSpan_coherent env sl sr bp mw doc ls.cache hc r0).trans ho
    have htail : ∀ r ∈ rest, ∃ o, computeSpan env sl sr bp mw doc [] r = .ok o :=
      fun r hr => hok r (List.mem_cons_of_mem _ hr)
    cases o with
    | skip =>
      rw [processRegion_skip env sl sr bp mw doc ls r0 ho']
      exact ih ls hc htail
    | render k html rk idata =>
      by_cases hm : ((k, html) : Phantom) ∈ ls.stored
      · have hpr := processRegion_present env sl sr bp mw doc ls r0 k html rk idata ho' hm
        rw [hpr]
        exact ih _ (processRegion_coherent env sl sr bp mw doc ls _ r0 hc hpr) htail
      · have hpr := processRegion_absent env sl sr bp mw doc ls r0 k html rk idata ho' hm
        rw [hpr]
        exact ih _ (processRegion_coherent env sl sr bp mw doc ls _ r0 hc hpr) htail

/-! ## Claim C1 — error containment of the render pass -/

/-- C1, counterexample.  The claim states that a resolution failure excludes
only its own span and the pass continues for all other spans.  With
`a.png` present and `b.png` missing, the pass aborts on `b.png` (processed
first, in reverse document order) with an uncaught exception, rendering
nothing — `a.png` is never processed and no overlay is produced. -/
theorem C1_counterexample :
    show_images envAonly docTwoLines regsTwoLines 0 true false "" ⟨[], []⟩ =
      (⟨[], []⟩, [], some "MarkdownImages: Failed to load [b.png]") := by
  decide

/-- C1, amended.  A span that signals `SkipImageException` or has a falsy
file type is excluded with the loop state untouched and the pass continues;
but a span whose resolution hard-fails (local read failure, remote
fetch/read failure, geometry `TypeError`) raises an exception the loop does
not catch: the pass aborts at once, the remaining spans are not processed
and no leftover-erase sweep runs.  A pass in which every span resolves
without exception completes. -/
theorem C1_amended :
    (∀ (env : Env) (sl sr : Bool) (bp : String) (mw : ℚ) (doc : List Char)
      (r : Region) (rest : List Region) (ls : LoopState),
      computeSpan env sl sr bp mw doc ls.cache r = .ok .skip →
      showImagesLoop env sl sr bp mw doc (r :: rest) ls =
        showImagesLoop env sl sr bp mw doc rest ls) ∧
    (∀ (env : Env) (sl sr : Bool) (bp : String) (mw : ℚ) (doc : List Char)
      (r : Region) (rest : List Region) (ls : LoopState) (m : String),
      computeSpan env sl sr bp mw doc ls.cache r = .error m →
      showImagesLoop env sl sr bp mw doc (r :: rest) ls = (ls, some m)) ∧
    (∀ (env : Env) (doc : List Char) (img_regs : List Region) (mwArg : ℚ)
      (sl sr : Bool) (bp : String) (st : DocState),
      CacheCoherent env st.cache →
      (∀ r ∈ (merge_regions doc img_regs).reverse,
        ∃ o, computeSpan env sl sr bp (normMw mwArg) doc [] r = .ok o) →
      (show_images env doc img_regs mwArg sl sr bp st).2.2 = none) := by
  refine ⟨?_, ?_, ?_⟩
  · intro env sl sr bp mw doc r rest ls h
    rw [showImagesLoop_cons, processRegion_skip env sl sr bp mw doc ls r h]
  · intro env sl sr bp mw doc r rest ls m h
    rw [showImagesLoop_cons, processRegion_error env sl sr bp mw doc ls r m h]
  · intro env doc img_regs mwArg sl sr bp st hc hok
    unfold show_images
    by_cases hoff : (!sl && !sr) = true
    · rw [if_pos hoff]
    · rw [if_neg hoff]
      dsimp only
      rcases hE : showImagesLoop env sl sr bp (normMw mwArg) doc
          ((merge_regions doc img_regs).reverse) ⟨[], st.phantoms, st.cache, []⟩ with ⟨ls1, err1⟩
      have hdone := loop_ok_of_pure env sl sr bp (normMw mwArg) doc
        ((merge_regions doc img_regs).reverse) ⟨[], st.phantoms, st.cache, []⟩ hc hok
      rw [hE] at hdone
      cases err1 with
      | some m => exact absurd hdone (by simp)
      | none => rfl

/-- C1, witness: a skipped span continues the loop, a missing file aborts
it, and a pass over no spans completes. -/
theorem C1_amended_witness :
    showImagesLoop envNone false false "" 1024 ['a'] [⟨0, 1⟩] ⟨[], [], [], []⟩ =
      showImagesLoop envNone false false "" 1024 ['a'] [] ⟨[], [], [], []⟩ ∧
    showImagesLoop envNone true false "" 1024 ['a'] [⟨0, 1⟩] ⟨[], [], [], []⟩ =
      (⟨[], [], [], []⟩, some "MarkdownImages: Failed to load [a]") ∧
    (show_images envNone [] [] 0 true false "" ⟨[], []⟩).2.2 = none :=
  ⟨C1_amended.1 envNone false false "" 1024 ['a'] ⟨0, 1⟩ [] ⟨[], [], [], []⟩ (by decide),
   C1_amended.2.1 envNone true false "" 1024 ['a'] ⟨0, 1⟩ [] ⟨[], [], [], []⟩
     "MarkdownImages: Failed to load [a]" (by decide),
   C1_amended.2.2 envNone [] [] 0 true false "" ⟨[], []⟩
     (by intro k d hkd; simp [cacheGet] at hkd)
     (by
       intro r hr
       rw [show (merge_regions ([] : List Char) ([] : List Region)).reverse = [] from rfl] at hr
       cases hr)⟩

/-! ## Claim C3 — idempotence of the render pass -/

/-- C3, counterexample.  The claim states a second pass on an unchanged
document issues zero add and zero remove operations.  With two image links
on the same line both phantoms get the same key; the one overwritten in the
per-pass dict is erased at the end of each pass, so the second (completed)
pass re-adds and re-erases it: its operation list is nonempty. -/
theorem C3_counterexample :
    (show_images envAB docSameLine regsSameLine 0 true false ""
        (show_images envAB docSameLine regsSameLine 0 true false "" ⟨[], []⟩).1).2.2 = none ∧
    (show_images envAB docSameLine regsSameLine 0 true false "" ⟨[], []⟩).2.2 = none ∧
    (show_images envAB docSameLine regsSameLine 0 true false ""
        (show_images envAB docSameLine regsSameLine 0 true false "" ⟨[], []⟩).1).2.1 ≠ [] := by
  decide

/-- C3, amended.  Provided no two rendered spans share an overlay key (at
most one rendered image link per line) and the starting cache is coherent
with the network, a completed pass is idempotent: running the same pass
again from the resulting session state completes, returns the identical
session state, and issues zero host operations.  (With shared keys the
overlay set is still reproduced but redundant add/erase operations are
issued, as the counterexample shows.) -/
theorem C3_amended (env : Env) (doc : List Char) (img_regs : List Region) (mwArg : ℚ)
    (sl sr : Bool) (bp : String) (st0 st1 : DocState) (ops1 : List Op)
    (hcoh : CacheCoherent env st0.cache)
    (h1 : show_images env doc img_regs mwArg sl sr bp st0 = (st1, ops1, none))
    (hkeys : (passKeys env doc img_regs mwArg sl sr bp).Nodup) :
    show_images env doc img_regs mwArg sl sr bp st1 = (st1, [], none) := by
  unfold show_images at h1 ⊢
  by_cases hoff : (!sl && !sr) = true
  · rw [if_pos hoff] at h1 ⊢
  · rw [if_neg hoff] at h1 ⊢
    dsimp only at h1 ⊢
    rcases hE : showImagesLoop env sl sr bp (normMw mwArg) doc
        ((merge_regions doc img_regs).reverse) ⟨[], st0.phantoms, st0.cache, []⟩ with ⟨ls1, err1⟩
    rw [hE] at h1
    cases err1 with
    | some m => simp at h1
    | none =>
      simp only [Prod.mk.injEq] at h1
      obtain ⟨hst1, hops1, -⟩ := h1
      unfold passKeys at hkeys
      have hcoh0 : CacheCoherent env
          ((⟨[], st0.phantoms, st0.cache, []⟩ : LoopState).cache) := hcoh
      have hdone : (showImagesLoop env sl sr bp (normMw mwArg) doc
          ((merge_regions doc img_regs).reverse) ⟨[], st0.phantoms, st0.cache, []⟩).2 = none := by
        rw [hE]
      have hok := loop_ok_pure env sl sr bp (normMw mwArg) doc
        ((merge_regions doc img_regs).reverse) _ hcoh0 hdone
      have hdict : ls1.dict = dictRun env sl sr bp (normMw mwArg) doc []
          ((merge_regions doc img_regs).reverse) := by
        have := loop_dict env sl sr bp (normMw mwArg) doc
          ((merge_regions doc img_regs).reverse) _ hcoh0 hdone
        rw [hE] at this
        exact this
      have hcoh1 : CacheCoherent env ls1.cache := by
        have := loop_coherent env sl sr bp (normMw mwArg) doc
          ((merge_regions doc img_regs).reverse) _ hcoh0
        rw [hE] at this
        exact this
      have hphant : st1.phantoms =
          ls1.stored.filter (fun p => dictGet ls1.dict p.1 == some p) := by
        rw [← hst1]
      have hcache : st1.cache = ls1.cache := by
        rw [← hst1]
      have hmem : ∀ r ∈ (merge_regions doc img_regs).reverse, ∀ k html rk idata,
          computeSpan env sl sr bp (normMw mwArg) doc [] r = .ok (.render k html rk idata) →
          ((k, html) : Phantom) ∈ st1.phantoms := by
        intro r hr k html rk idata hcs
        rw [hphant]
        apply List.mem_filter.mpr
        constructor
        · have := loop_render_stored env sl sr bp (normMw mwArg) doc
            ((merge_regions doc img_regs).reverse) _ hcoh0 hdone r hr k html rk idata hcs
          rw [hE] at this
          exact this
        · have := dictRun_get_render env sl sr bp (normMw mwArg) doc
            ((merge_regions doc img_regs).reverse) [] hkeys r hr k html rk idata hcs
          rw [hdict]
          simp only [this, beq_self_eq_true]
      have hcoh1' : CacheCoherent env
          ((⟨[], st1.phantoms, st1.cache, []⟩ : LoopState).cache) := by
        dsimp only
        rw [hcache]
        exact hcoh1
      have hrun := loop_all_present env sl sr bp (normMw mwArg) doc
        ((merge_regions doc img_regs).reverse) ⟨[], st1.phantoms, st1.cache, []⟩
        hcoh1' hok hmem
      rw [hrun]
      dsimp only
      have hkeep : st1.phantoms.filter
          (fun p => dictGet (dictRun env sl sr bp (normMw mwArg) doc []
            ((merge_regions doc img_regs).reverse)) p.1 == some p) = st1.phantoms := by
        apply List.filter_eq_self.mpr
        intro p hp
        rw [hphant] at hp
        have := (List.mem_filter.mp hp).2
        rw [hdict] at this
        exact this
      have herase : st1.phantoms.filter
          (fun p => !(dictGet (dictRun env sl sr bp (normMw mwArg) doc []
            ((merge_regions doc img_regs).reverse)) p.1 == some p)) = [] := by
        apply List.filter_eq_nil_iff.mpr
        intro p hp
        rw [hphant] at hp
        have := (List.mem_filter.mp hp).2
        rw [hdict] at this
        simp [this]
      rw [hkeep, herase]
      rfl

/-- C3, witness: rendering one local image a second time from the resulting
session reproduces the session and issues no operations. -/
theorem C3_amended_witness :
    show_images envAonly docOneLine [⟨4, 9⟩] 0 true false "" ⟨[(0, htmlA)], []⟩ =
      (⟨[(0, htmlA)], []⟩, [], none) :=
  C3_amended envAonly docOneLine [⟨4, 9⟩] 0 true false "" ⟨[], []⟩
    ⟨[(0, htmlA)], []⟩ [Op.add 0 htmlA]
    (by intro k d hkd; simp [cacheGet] at hkd)
    (by decide)
    (by decide)

/-! ## Claim C8 — cache lifecycle -/

/-- C8, counterexample.  The claim states the remote-bytes cache is
unchanged by re-renders.  A completed render of one remote image adds its
bytes to the cache: the cache changes from empty to nonempty. -/
theorem C8_counterexample :
    (show_images envRemote docRemote regsRemote 0 false true "" ⟨[], []⟩).1.cache ≠ [] ∧
    (show_images envRemote docRemote regsRemote 0 false true "" ⟨[], []⟩).2.2 = none := by
  decide

/-- C8, amended.  Hide erases all overlays and leaves the cache exactly
unchanged; close drops both the overlay set and the cache; a render pass
never removes a cache entry and never alters a nonempty one (it may add
entries or refresh an empty one). -/
theorem C8_amended :
    (∀ st : DocState, (hide_images st).1 = ⟨[], st.cache⟩) ∧
    (∀ st : DocState, (on_close st).1 = ⟨[], []⟩) ∧
    (∀ (env : Env) (doc : List Char) (img_regs : List Region) (mwArg : ℚ)
      (sl sr : Bool) (bp : String) (st : DocState) (k : String) (d : List Nat),
      cacheGet st.cache k = some d → d ≠ [] →
      cacheGet (show_images env doc img_regs mwArg sl sr bp st).1.cache k = some d) := by
  refine ⟨fun st => rfl, fun st => rfl, ?_⟩
  intro env doc img_regs mwArg sl sr bp st k d hg hd
  unfold show_images
  by_cases hoff : (!sl && !sr) = true
  · rw [if_pos hoff]
    exact hg
  · rw [if_neg hoff]
    dsimp only
    rcases hE : showImagesLoop env sl sr bp (normMw mwArg) doc
        ((merge_regions doc img_regs).reverse) ⟨[], st.phantoms, st.cache, []⟩ with ⟨ls1, err1⟩
    have hpres := loop_cache_preserved env sl sr bp (normMw mwArg) doc
      ((merge_regions doc img_regs).reverse) ⟨[], st.phantoms, st.cache, []⟩ k d hg hd
    rw [hE] at hpres
    cases err1 with
    | some m => exact hpres
    | none => exact hpres

/-- C8, witness: hide keeps a cache entry while clearing overlays, close
drops both, and a render pass preserves an existing nonempty entry. -/
theorem C8_amended_witness :
    (hide_images ⟨[(1, htmlU)], [("u", [9])]⟩).1 = ⟨[], [("u", [9])]⟩ ∧
    (on_close ⟨[(1, htmlU)], [("u", [9])]⟩).1 = ⟨[], []⟩ ∧
    cacheGet (show_images envNone [] [] 0 true false "" ⟨[], [("u", [9])]⟩).1.cache "u" =
      some [9] :=
  ⟨C8_amended.1 ⟨[(1, htmlU)], [("u", [9])]⟩,
   C8_amended.2.1 ⟨[(1, htmlU)], [("u", [9])]⟩,
   C8_amended.2.2 envNone [] [] 0 true false "" ⟨[], [("u", [9])]⟩ "u" [9]
     (by decide) (by decide)⟩

/-! ## Claim C9 — uniqueness of stored overlay keys -/

/-- C9, counterexample.  The claim states that after every render pass the
stored overlay keys are pairwise distinct, including with two image spans on
one line.  With two same-line spans rendered and an earlier span whose file
is missing, the pass aborts after storing both same-key phantoms and before
the leftover-erase sweep: the session retains two overlay specs sharing key
11. -/
theorem C9_counterexample :
    ((show_images envAB docC9 regsC9 0 true false "" ⟨[], []⟩).1.phantoms.map Prod.fst)
      = [11, 11] ∧
    ¬ ((show_images envAB docC9 regsC9 0 true false "" ⟨[], []⟩).1.phantoms.map
        Prod.fst).Nodup := by
  decide

/-- C9, amended.  After every *completed* render pass starting from a
session whose stored keys are pairwise distinct (e.g. the empty initial
session), the stored overlay keys are again pairwise distinct — the final
sweep keeps only phantoms agreeing with the single-valued per-pass dict.
An aborted pass can leave duplicate keys, as the counterexample shows. -/
theorem C9_amended (env : Env) (doc : List Char) (img_regs : List Region) (mwArg : ℚ)
    (sl sr : Bool) (bp : String) (st0 st1 : DocState) (ops1 : List Op)
    (hkeys0 : (st0.phantoms.map Prod.fst).Nodup)
    (h1 : show_images env doc img_regs mwArg sl sr bp st0 = (st1, ops1, none)) :
    (st1.phantoms.map Prod.fst).Nodup := by
  unfold show_images at h1
  by_cases hoff : (!sl && !sr) = true
  · rw [if_pos hoff] at h1
    cases h1
    exact hkeys0
  · rw [if_neg hoff] at h1
    dsimp only at h1
    rcases hE : showImagesLoop env sl sr bp (normMw mwArg) doc
        ((merge_regions doc img_regs).reverse) ⟨[], st0.phantoms, st0.cache, []⟩ with ⟨ls1, err1⟩
    rw [hE] at h1
    cases err1 with
    | some m => simp at h1
    | none =>
      simp only [Prod.mk.injEq] at h1
      obtain ⟨hst1, -, -⟩ := h1
      have hnod : ls1.stored.Nodup := by
        have := loop_stored_nodup env sl sr bp (normMw mwArg) doc
          ((merge_regions doc img_regs).reverse) ⟨[], st0.phantoms, st0.cache, []⟩
          (List.Nodup.of_map _ hkeys0)
        rw [hE] at this
        exact this
      rw [← hst1]
      dsimp only
      apply List.Nodup.map_on ?inj (hnod.filter _)
      intro p hp q hq hpq
      have hp' : dictGet ls1.dict p.1 = some p := eq_of_beq (List.mem_filter.mp hp).2
      have hq' : dictGet ls1.dict q.1 = some q := eq_of_beq (List.mem_filter.mp hq).2
      rw [hpq] at hp'
      exact Option.some.inj (hp'.symm.trans hq')

/-- C9, witness: the two-same-line-spans pass, run to completion from the
empty session, stores a single key. -/
theorem C9_amended_witness :
    (((⟨[(0, htmlA)], []⟩ : DocState)).phantoms.map Prod.fst).Nodup :=
  C9_amended envAB docSameLine regsSameLine 0 true false "" ⟨[], []⟩
    ⟨[(0, htmlA)], []⟩ [Op.add 0 htmlB, Op.add 0 htmlA, Op.erase 0]
    (by decide) (by decide)

/-! ## Claim C10 — the trailing-`>` strip requires nonempty span text -/

/-- C10, confirmed.  The stripping step reads the last character
unconditionally: it is total on nonempty span text, and a span whose text is
empty makes the pass raise an uncaught `IndexError` instead of skipping the
span (shown on a concrete document with an empty region). -/
theorem C10_strip_totality :
    (∀ s : List Char, s ≠ [] → ∃ t, strip_trailing_gt s = .ok t) ∧
    show_images envNone ['a', 'b'] [⟨2, 2⟩] 0 true false "" ⟨[], []⟩ =
      (⟨[], []⟩, [], some "IndexError: string index out of range") := by
  constructor
  · intro s hs
    cases hl : s.getLast? with
    | none => exact absurd (List.getLast?_eq_none_iff.mp hl) hs
    | some c =>
      exact ⟨_, by unfold strip_trailing_gt; rw [hl]⟩
  · decide

/-- C10, witness: the totality part applied to a one-character span. -/
theorem C10_strip_totality_witness : ∃ t, strip_trailing_gt ['x'] = .ok t :=
  C10_strip_totality.1 ['x'] (by decide)

end MdImage
